import Mathlib

/-!
Verification of the CheckPoint-to-FortiGate object converter.

The development shallowly embeds the converter script: source objects are
records of optional JSON fields, each `convert_*_object` function mirrors the
corresponding Python function (field truthiness checks, duplicate detection
against the existing-config index, and the rendered CLI block), the pipeline
`convert_objects` mirrors the partition-and-fold orchestration, and
`load_existing_fortigate_config` mirrors the regex-based section scanner that
recovers name/type/address facts from previously generated output.
-/

namespace CkptFgt

/-- A JSON scalar as it matters to the script: a string or an integer.  Used
for the `port` field, whose Python truthiness distinguishes `0` and `""`
(falsy) from `"0"` (truthy). -/
inductive JVal where
  | jstr (s : String)
  | jnum (n : Int)
deriving DecidableEq

/-- Python truthiness of a `JVal`: empty string and zero are falsy. -/
def JVal.truthy : JVal → Bool
  | .jstr s => s != ""
  | .jnum n => n != 0

/-- Python `str()` rendering of a `JVal`, as used by the f-strings. -/
def JVal.render : JVal → String
  | .jstr s => s
  | .jnum n => toString n

/-- A CheckPoint source object: the dictionary fields the script reads.
`none` stands for an absent key (or JSON `null`, which `dict.get` also turns
into Python `None`); `members` defaults to `[]` as in `obj.get('members', [])`
and `comments` defaults to `""` as in `obj.get('comments', '')`. -/
structure SrcObj where
  type_ : Option String
  uid : Option String
  name : Option String
  ipv4Address : Option String
  subnet4 : Option String
  maskLength4 : Option Int
  ipv4AddressFirst : Option String
  ipv4AddressLast : Option String
  port : Option JVal
  members : List String
  comments : String
deriving DecidableEq

/-- A `SrcObj` with every field absent; concrete test objects override the
fields they need. -/
def emptyObj : SrcObj :=
  { type_ := none, uid := none, name := none, ipv4Address := none,
    subnet4 := none, maskLength4 := none, ipv4AddressFirst := none,
    ipv4AddressLast := none, port := none, members := [], comments := "" }

/-- Python truthiness of an optional string field: present and non-empty. -/
def truthyS : Option String → Bool
  | none => false
  | some s => s != ""

/-- Extract the string out of an optional field (used after a truthiness
check, where the field is known to be present). -/
def getS : Option String → String
  | none => ""
  | some s => s

/-- Python truthiness of the optional `port` field. -/
def portTruthy : Option JVal → Bool
  | none => false
  | some v => v.truthy

/-- Rendering of the `port` field inside an f-string. -/
def portRender : Option JVal → String
  | none => ""
  | some v => v.render

/-- The descriptor the existing-config loader stores per object name:
the `type` token and the optional address facts of the `ip_info` dictionary
(`subnet` for `ipmask` sections, `start-ip`/`end-ip` for `iprange`
sections). -/
structure ExDesc where
  type_ : String
  subnet : Option String
  startIp : Option String
  endIp : Option String
deriving DecidableEq

/-- The existing-config index: object name to descriptor.  Modelled as an
association list where the first hit wins, so that consing a binding to the
front realises the Python dictionary overwrite. -/
abbrev ExIndex := List (String × ExDesc)

/-- Dictionary lookup in the existing-config index. -/
def lookupEx (ex : ExIndex) (n : String) : Option ExDesc :=
  match ex with
  | [] => none
  | (k, v) :: rest => if k == n then some v else lookupEx rest n

/-- The identifier index `objects_by_uid`: uid to source object, first hit
wins (bindings are consed, so the last Python assignment is found first). -/
abbrev UidIndex := List (String × SrcObj)

/-- Dictionary lookup in the identifier index. -/
def lookupUid (m : UidIndex) (u : String) : Option SrcObj :=
  match m with
  | [] => none
  | (k, v) :: rest => if k == u then some v else lookupUid rest u

/-- `objects_by_uid = {obj.get('uid'): obj for obj in objects if 'uid' in obj}`. -/
def buildUidIndex (objs : List SrcObj) : UidIndex :=
  objs.foldl (fun m o =>
    match o.uid with
    | some u => (u, o) :: m
    | none => m) []

/-- The optional trailing comment line of a rendered block. -/
def commentPart (c : String) : String :=
  if c != "" then "        set comment \"" ++ c ++ "\"\n" else ""

/-- Faithful model of `convert_host_object`. -/
def convert_host_object (obj : SrcObj) (ex : ExIndex) : Option String × Bool :=
  if !truthyS obj.name || !truthyS obj.ipv4Address then (none, false)
  else
    let n := getS obj.name
    let a := getS obj.ipv4Address
    let isDup :=
      match lookupEx ex n with
      | some e => e.type_ == "ipmask" && e.subnet == some (a ++ "/32")
      | none => false
    if isDup then (none, true)
    else
      (some ("config firewall address\n    edit \"" ++ n ++
        "\"\n        set type ipmask\n        set subnet " ++ a ++ "/32\n" ++
        commentPart obj.comments ++ "    next\nend"), false)

/-- Faithful model of `convert_network_object`. -/
def convert_network_object (obj : SrcObj) (ex : ExIndex) : Option String × Bool :=
  if !truthyS obj.name || !truthyS obj.subnet4 || obj.maskLength4 == none then (none, false)
  else
    let n := getS obj.name
    let s := getS obj.subnet4
    let m := toString (obj.maskLength4.getD 0)
    let isDup :=
      match lookupEx ex n with
      | some e => e.type_ == "ipmask" && e.subnet == some (s ++ "/" ++ m)
      | none => false
    if isDup then (none, true)
    else
      (some ("config firewall address\n    edit \"" ++ n ++
        "\"\n        set type ipmask\n        set subnet " ++ s ++ "/" ++ m ++ "\n" ++
        commentPart obj.comments ++ "    next\nend"), false)

/-- Faithful model of `convert_range_object`. -/
def convert_range_object (obj : SrcObj) (ex : ExIndex) : Option String × Bool :=
  if !truthyS obj.name || !truthyS obj.ipv4AddressFirst || !truthyS obj.ipv4AddressLast then
    (none, false)
  else
    let n := getS obj.name
    let f := getS obj.ipv4AddressFirst
    let l := getS obj.ipv4AddressLast
    let isDup :=
      match lookupEx ex n with
      | some e => e.type_ == "iprange" && e.startIp == some f && e.endIp == some l
      | none => false
    if isDup then (none, true)
    else
      (some ("config firewall address\n    edit \"" ++ n ++
        "\"\n        set type iprange\n        set start-ip " ++ f ++
        "\n        set end-ip " ++ l ++ "\n" ++
        commentPart obj.comments ++ "    next\nend"), false)

/-- The member-resolution loop of `convert_group_object`: look each member
uid up in `objects_by_uid` and keep the object's name when it is present and
truthy. -/
def resolveMemberNames (uidIdx : UidIndex) (members : List String) : List String :=
  members.filterMap (fun u =>
    match lookupUid uidIdx u with
    | some o =>
      match o.name with
      | some nm => if nm != "" then some nm else none
      | none => none
    | none => none)

/-- Python `' '.join`: the parts separated by single spaces. -/
def joinSpace : List String → String
  | [] => ""
  | [x] => x
  | x :: xs => x ++ " " ++ joinSpace xs

/-- The `set member` line: the resolved names, each double-quoted, joined by
single spaces (empty when no member resolved). -/
def memberPart (mns : List String) : String :=
  if mns != [] then
    "        set member " ++ joinSpace (mns.map (fun m => "\"" ++ m ++ "\"")) ++ "\n"
  else ""

/-- Faithful model of `convert_group_object`. -/
def convert_group_object (obj : SrcObj) (uidIdx : UidIndex) (ex : ExIndex) :
    Option String × Bool :=
  if !truthyS obj.name || obj.members == [] then (none, false)
  else if (lookupEx ex (getS obj.name)).isSome then (none, true)
  else
    (some ("config firewall addrgrp\n    edit \"" ++ getS obj.name ++ "\"\n" ++
      memberPart (resolveMemberNames uidIdx obj.members) ++
      commentPart obj.comments ++ "    next\nend"), false)

/-- Faithful model of `convert_service_tcp_object`. -/
def convert_service_tcp_object (obj : SrcObj) (ex : ExIndex) : Option String × Bool :=
  if !truthyS obj.name || !portTruthy obj.port then (none, false)
  else if (lookupEx ex (getS obj.name)).isSome then (none, true)
  else
    (some ("config firewall service custom\n    edit \"" ++ getS obj.name ++
      "\"\n        set tcp-portrange " ++ portRender obj.port ++
      "\n        set protocol TCP/UDP/SCTP\n" ++
      commentPart obj.comments ++ "    next\nend"), false)

/-- Faithful model of `convert_service_udp_object`. -/
def convert_service_udp_object (obj : SrcObj) (ex : ExIndex) : Option String × Bool :=
  if !truthyS obj.name || !portTruthy obj.port then (none, false)
  else if (lookupEx ex (getS obj.name)).isSome then (none, true)
  else
    (some ("config firewall service custom\n    edit \"" ++ getS obj.name ++
      "\"\n        set udp-portrange " ++ portRender obj.port ++
      "\n        set protocol TCP/UDP/SCTP\n" ++
      commentPart obj.comments ++ "    next\nend"), false)

/-- Whether the object goes to the group partition of the pipeline. -/
def isGroupType (o : SrcObj) : Bool :=
  o.type_ == some "group"

/-- The `elif obj_type == ...` dispatch of the simple-object loop. -/
def convertSimple (obj : SrcObj) (ex : ExIndex) : Option String × Bool :=
  match obj.type_ with
  | some "host" => convert_host_object obj ex
  | some "network" => convert_network_object obj ex
  | some "address-range" => convert_range_object obj ex
  | some "service-tcp" => convert_service_tcp_object obj ex
  | some "service-udp" => convert_service_udp_object obj ex
  | _ => (none, false)

/-- The per-kind dispatch the pipeline performs: group objects go through
`convert_group_object`, everything else through the simple dispatch. -/
def convertAny (obj : SrcObj) (uidIdx : UidIndex) (ex : ExIndex) : Option String × Bool :=
  if isGroupType obj then convert_group_object obj uidIdx ex
  else convertSimple obj ex

/-- The accumulation step shared by both loops of `convert_objects`:
a duplicate bumps the count, otherwise a truthy command string is appended. -/
def accStep (acc : List String × Nat) (res : Option String × Bool) : List String × Nat :=
  if res.2 then (acc.1, acc.2 + 1)
  else
    match res.1 with
    | some c => if c != "" then (acc.1 ++ [c], acc.2) else acc
    | none => acc

/-- Faithful model of `convert_objects`: build the uid index, partition into
simple and group objects preserving order, convert simple objects first and
groups second, accumulating blocks and the duplicate count. -/
def convert_objects (objs : List SrcObj) (ex : ExIndex) : List String × Nat :=
  if objs.isEmpty then ([], 0)
  else
    let uidIdx := buildUidIndex objs
    let simples := objs.filter (fun o => !isGroupType o)
    let groups := objs.filter isGroupType
    let acc1 := simples.foldl (fun acc o => accStep acc (convertSimple o ex)) ([], 0)
    groups.foldl (fun acc o => accStep acc (convert_group_object o uidIdx ex)) acc1

/-- The character class `\s` of the regexes (ASCII whitespace). -/
def isSpaceCh (c : Char) : Bool :=
  c == ' ' || c == '\t' || c == '\n' || c == '\r' || c == '\x0b' || c == '\x0c'

/-- The character class `\w` of the regexes. -/
def isWordCh (c : Char) : Bool :=
  c.isAlphanum || c == '_'

/-- The character class `[0-9.]` of the regexes. -/
def isDigitDot (c : Char) : Bool :=
  c.isDigit || c == '.'

/-- Split a character list at the first occurrence of the literal `next`
(the lazy `(.*?)next` of the section regex): returns the characters before
the occurrence and the characters after it. -/
def splitAtNext : List Char → Option (List Char × List Char)
  | 'n' :: 'e' :: 'x' :: 't' :: r => some ([], r)
  | c :: r =>
    match splitAtNext r with
    | some (d, rest) => some (c :: d, rest)
    | none => none
  | [] => none

/-- Consume the literal `edit`. -/
def parseEdit : List Char → Option (List Char)
  | 'e' :: 'd' :: 'i' :: 't' :: r => some r
  | _ => none

/-- Consume `\s+` (at least one whitespace character, greedily). -/
def parseWs (l : List Char) : Option (List Char) :=
  if (l.takeWhile isSpaceCh).isEmpty then none else some (l.dropWhile isSpaceCh)

/-- Consume one double quote. -/
def parseQuote : List Char → Option (List Char)
  | '"' :: r => some r
  | _ => none

/-- Consume `([^"]+)"`: a non-empty run of non-quote characters (the
captured name) followed by the closing quote. -/
def parseName (l : List Char) : Option (List Char × List Char) :=
  if (l.takeWhile (fun c => c != '"')).isEmpty then none
  else
    match l.dropWhile (fun c => c != '"') with
    | '"' :: r => some (l.takeWhile (fun c => c != '"'), r)
    | _ => none

/-- One attempt of the section regex `edit\s+"([^"]+)"(.*?)next` at the
current position: on success returns the captured name, the captured details
and the rest of the input after the consumed `next`. -/
def tryMatch (l : List Char) : Option (List Char × List Char × List Char) :=
  (parseEdit l).bind fun r =>
    (parseWs r).bind fun r1 =>
      (parseQuote r1).bind fun r2 =>
        (parseName r2).bind fun p =>
          (splitAtNext p.2).bind fun q => some (p.1, q.1, q.2)

/-- The `re.findall` scan: try the section regex at each position from left
to right, emitting every non-overlapping match.  Driven by explicit fuel so
that the definition is structurally recursive; `scanSections` supplies the
input length, which is always enough fuel. -/
def scanGo : Nat → List Char → List (List Char × List Char)
  | 0, _ => []
  | _ + 1, [] => []
  | fuel + 1, c :: t =>
    match tryMatch (c :: t) with
    | some (nm, d, rest) => (nm, d) :: scanGo fuel rest
    | none => scanGo fuel t

/-- All sections `(name, details)` matched by `edit\s+"([^"]+)"(.*?)next`. -/
def scanSections (l : List Char) : List (List Char × List Char) :=
  scanGo l.length l

/-- Consume an exact literal from the front of the input. -/
def dropLit : List Char → List Char → Option (List Char)
  | [], l => some l
  | _ :: _, [] => none
  | k :: ks, c :: cs => if c == k then dropLit ks cs else none

/-- One attempt of a `set\s+KEY\s+VALUE` regex at the current position:
consume `set`, mandatory whitespace, the key literal, mandatory whitespace,
then the value pattern. -/
def matchSetKey (key : List Char) (val : List Char → Option (List Char))
    (l : List Char) : Option (List Char) :=
  match l with
  | 's' :: 'e' :: 't' :: r =>
    if (r.takeWhile isSpaceCh).isEmpty then none
    else
      match dropLit key (r.dropWhile isSpaceCh) with
      | some r2 =>
        if (r2.takeWhile isSpaceCh).isEmpty then none
        else val (r2.dropWhile isSpaceCh)
      | none => none
  | _ => none

/-- The value pattern `(\w+)`. -/
def wordVal (l : List Char) : Option (List Char) :=
  let w := l.takeWhile isWordCh
  if w.isEmpty then none else some w

/-- The value pattern `([0-9.]+)`. -/
def ipVal (l : List Char) : Option (List Char) :=
  let a := l.takeWhile isDigitDot
  if a.isEmpty then none else some a

/-- The value pattern `([0-9.]+/[0-9]+)`. -/
def subnetVal (l : List Char) : Option (List Char) :=
  let a := l.takeWhile isDigitDot
  if a.isEmpty then none
  else
    match l.dropWhile isDigitDot with
    | '/' :: r =>
      let m := r.takeWhile Char.isDigit
      if m.isEmpty then none else some (a ++ '/' :: m)
    | _ => none

/-- One attempt of `set\s+type\s+(\w+)`. -/
def matchTypeWord : List Char → Option (List Char) :=
  matchSetKey ['t', 'y', 'p', 'e'] wordVal

/-- One attempt of `set\s+subnet\s+([0-9.]+/[0-9]+)`. -/
def matchSubnet : List Char → Option (List Char) :=
  matchSetKey ['s', 'u', 'b', 'n', 'e', 't'] subnetVal

/-- One attempt of `set\s+start-ip\s+([0-9.]+)`. -/
def matchStartIp : List Char → Option (List Char) :=
  matchSetKey ['s', 't', 'a', 'r', 't', '-', 'i', 'p'] ipVal

/-- One attempt of `set\s+end-ip\s+([0-9.]+)`. -/
def matchEndIp : List Char → Option (List Char) :=
  matchSetKey ['e', 'n', 'd', '-', 'i', 'p'] ipVal

/-- The `re.search` scan: try the matcher at each position from left to
right, returning the first success. -/
def searchAux (m : List Char → Option (List Char)) : List Char → Option (List Char)
  | [] => none
  | c :: t =>
    match m (c :: t) with
    | some r => some r
    | none => searchAux m t

/-- Python `str.strip()` on a character list. -/
def stripChars (l : List Char) : List Char :=
  ((l.dropWhile isSpaceCh).reverse.dropWhile isSpaceCh).reverse

/-- The per-section analysis of the loader: the `type` token (or `unknown`)
and, depending on it, the `subnet` or the `start-ip`/`end-ip` facts. -/
def sectionDescriptor (d : List Char) : ExDesc :=
  let t :=
    match searchAux matchTypeWord d with
    | some w => String.mk w
    | none => "unknown"
  if t == "ipmask" then
    { type_ := t, subnet := (searchAux matchSubnet d).map String.mk,
      startIp := none, endIp := none }
  else if t == "iprange" then
    { type_ := t, subnet := none,
      startIp := (searchAux matchStartIp d).map String.mk,
      endIp := (searchAux matchEndIp d).map String.mk }
  else
    { type_ := t, subnet := none, startIp := none, endIp := none }

/-- Faithful model of `load_existing_fortigate_config` on the file content:
scan all sections and store each one's descriptor under its name, later
sections overwriting earlier ones. -/
def load_existing_fortigate_config (content : String) : ExIndex :=
  (scanSections content.data).foldl
    (fun m nd => (String.mk nd.1, sectionDescriptor (stripChars nd.2)) :: m) []

/-- The serialization the main function performs: every block is written
followed by a blank-line separator. -/
def joinBlocks : List String → String
  | [] => ""
  | b :: bs => b ++ "\n\n" ++ joinBlocks bs

/-- The six kinds the converter dispatches on. -/
def supportedB (o : SrcObj) : Bool :=
  o.type_ == some "host" || o.type_ == some "network" || o.type_ == some "address-range" ||
  o.type_ == some "service-tcp" || o.type_ == some "service-udp" || o.type_ == some "group"

/-- The object is of a supported kind and all of its required fields are
present (with the truthiness the script checks). -/
def completeB (o : SrcObj) : Bool :=
  match o.type_ with
  | some "host" => truthyS o.name && truthyS o.ipv4Address
  | some "network" => truthyS o.name && truthyS o.subnet4 && o.maskLength4.isSome
  | some "address-range" =>
    truthyS o.name && truthyS o.ipv4AddressFirst && truthyS o.ipv4AddressLast
  | some "service-tcp" => truthyS o.name && portTruthy o.port
  | some "service-udp" => truthyS o.name && portTruthy o.port
  | some "group" => truthyS o.name && !o.members.isEmpty
  | _ => false

lemma convertAny_of_not_group (o : SrcObj) (u : UidIndex) (ex : ExIndex)
    (h : isGroupType o = false) : convertAny o u ex = convertSimple o ex := by
  simp [convertAny, h]

lemma convertAny_group (o : SrcObj) (u : UidIndex) (ex : ExIndex)
    (h : o.type_ = some "group") : convertAny o u ex = convert_group_object o u ex := by
  simp [convertAny, isGroupType, h]

lemma supportedB_cases (o : SrcObj) (h : supportedB o = true) :
    o.type_ = some "host" ∨ o.type_ = some "network" ∨ o.type_ = some "address-range" ∨
    o.type_ = some "service-tcp" ∨ o.type_ = some "service-udp" ∨ o.type_ = some "group" := by
  simp only [supportedB, Bool.or_eq_true, beq_iff_eq] at h
  tauto

lemma isGroupType_of_supported_false (o : SrcObj) (hsup : supportedB o = false) :
    isGroupType o = false := by
  cases hg : isGroupType o with
  | false => rfl
  | true =>
    simp only [isGroupType, beq_iff_eq] at hg
    simp [supportedB, hg] at hsup

/-- An object that is not complete (missing required fields, or of an
unsupported kind) always converts to `(none, false)`. -/
lemma convertAny_incomplete (o : SrcObj) (u : UidIndex) (ex : ExIndex)
    (hmiss : completeB o = false) : convertAny o u ex = (none, false) := by
  by_cases hsup : supportedB o = true
  case neg =>
    rw [convertAny_of_not_group o u ex
      (isGroupType_of_supported_false o (Bool.not_eq_true _ ▸ hsup))]
    unfold convertSimple
    split <;> rename_i heq
    · exact absurd (by simp [supportedB, heq]) hsup
    · exact absurd (by simp [supportedB, heq]) hsup
    · exact absurd (by simp [supportedB, heq]) hsup
    · exact absurd (by simp [supportedB, heq]) hsup
    · exact absurd (by simp [supportedB, heq]) hsup
    · rfl
  case pos =>
  rcases supportedB_cases o hsup with ht | ht | ht | ht | ht | ht
  · rw [convertAny_of_not_group o u ex (by simp [isGroupType, ht])]
    simp only [completeB, ht] at hmiss
    simp only [convertSimple, ht, convert_host_object]
    cases hn : truthyS o.name with
    | false => simp [hn]
    | true =>
      cases hi : truthyS o.ipv4Address with
      | false => simp [hn, hi]
      | true => rw [hn, hi] at hmiss; simp at hmiss
  · rw [convertAny_of_not_group o u ex (by simp [isGroupType, ht])]
    simp only [completeB, ht] at hmiss
    simp only [convertSimple, ht, convert_network_object]
    cases hn : truthyS o.name with
    | false => simp [hn]
    | true =>
      cases hs : truthyS o.subnet4 with
      | false => simp [hn, hs]
      | true =>
        cases hm : o.maskLength4 with
        | none => simp [hn, hs, hm]
        | some v => rw [hn, hs, hm] at hmiss; simp at hmiss
  · rw [convertAny_of_not_group o u ex (by simp [isGroupType, ht])]
    simp only [completeB, ht] at hmiss
    simp only [convertSimple, ht, convert_range_object]
    cases hn : truthyS o.name with
    | false => simp [hn]
    | true =>
      cases hf : truthyS o.ipv4AddressFirst with
      | false => simp [hn, hf]
      | true =>
        cases hl : truthyS o.ipv4AddressLast with
        | false => simp [hn, hf, hl]
        | true => rw [hn, hf, hl] at hmiss; simp at hmiss
  · rw [convertAny_of_not_group o u ex (by simp [isGroupType, ht])]
    simp only [completeB, ht] at hmiss
    simp only [convertSimple, ht, convert_service_tcp_object]
    cases hn : truthyS o.name with
    | false => simp [hn]
    | true =>
      cases hp : portTruthy o.port with
      | false => simp [hn, hp]
      | true => rw [hn, hp] at hmiss; simp at hmiss
  · rw [convertAny_of_not_group o u ex (by simp [isGroupType, ht])]
    simp only [completeB, ht] at hmiss
    simp only [convertSimple, ht, convert_service_udp_object]
    cases hn : truthyS o.name with
    | false => simp [hn]
    | true =>
      cases hp : portTruthy o.port with
      | false => simp [hn, hp]
      | true => rw [hn, hp] at hmiss; simp at hmiss
  · rw [convertAny_group o u ex ht]
    simp only [completeB, ht] at hmiss
    simp only [convert_group_object]
    cases hn : truthyS o.name with
    | false => simp [hn]
    | true =>
      cases hm : o.members with
      | nil => simp [hn, hm]
      | cons a t => rw [hn, hm] at hmiss; simp at hmiss

/-- CLAIM C6.  A supported-kind object with a missing (or falsy) required
field is classified as unconvertible: no block, not a duplicate, whatever the
existing-config index holds. -/
theorem claim_c6 (o : SrcObj) (u : UidIndex) (ex : ExIndex)
    (hsup : supportedB o = true) (hmiss : completeB o = false) :
    convertAny o u ex = (none, false) :=
  convertAny_incomplete o u ex hmiss

/-- Witness for C6 at a concrete input: a host object with a name but no
address, against an index that does contain the name. -/
theorem claim_c6_witness :
    convertAny { emptyObj with type_ := some "host", name := some "H1" } []
      [("H1", { type_ := "ipmask", subnet := some "10.0.0.1/32",
                startIp := none, endIp := none })] = (none, false) :=
  claim_c6 _ _ _ (by decide) (by decide)

/-- `startsWithL p l` holds when `p` is an initial segment of `l`. -/
def startsWithL : List Char → List Char → Bool
  | [], _ => true
  | _ :: _, [] => false
  | p :: ps, c :: cs => p == c && startsWithL ps cs

/-- `hasSub pat l` holds when `pat` occurs contiguously inside `l`. -/
def hasSub (pat : List Char) : List Char → Bool
  | [] => startsWithL pat []
  | c :: t => startsWithL pat (c :: t) || hasSub pat t

lemma startsWithL_append_right (p z : List Char) : startsWithL p (p ++ z) = true := by
  induction p with
  | nil => rfl
  | cons c cs ih => simp [startsWithL, ih]

lemma hasSub_nil (l : List Char) : hasSub [] l = true := by
  cases l <;> simp [hasSub, startsWithL]

lemma hasSub_of_append (pat a z : List Char) : hasSub pat (a ++ pat ++ z) = true := by
  induction a with
  | nil =>
    cases pat with
    | nil => simpa using hasSub_nil z
    | cons p ps =>
      have harr : ([] : List Char) ++ (p :: ps) ++ z = p :: (ps ++ z) := by simp
      rw [harr]
      have hs := startsWithL_append_right (p :: ps) z
      simp only [List.cons_append] at hs
      simp [hasSub, hs]
  | cons c cs ih =>
    have harr : (c :: cs) ++ pat ++ z = c :: (cs ++ pat ++ z) := by simp
    rw [harr]
    simp only [hasSub, Bool.or_eq_true]
    right
    simpa [List.append_assoc] using ih

/-- CLAIM C9.  A service object whose `port` is present but falsy (integer
`0` or empty string) is unconvertible: no block and no duplicate, whatever
the index holds under its name. -/
theorem claim_c9 (o : SrcObj) (ex : ExIndex)
    (hp : o.port = some (.jnum 0) ∨ o.port = some (.jstr "")) :
    convert_service_tcp_object o ex = (none, false) ∧
    convert_service_udp_object o ex = (none, false) := by
  have hpt : portTruthy o.port = false := by
    rcases hp with h | h <;> simp [h, portTruthy, JVal.truthy]
  constructor <;>
    simp [convert_service_tcp_object, convert_service_udp_object, hpt]

/-- Witness for C9: a TCP service named `S1` with port `0`, while the index
holds an entry under `S1`. -/
theorem claim_c9_witness :
    convert_service_tcp_object
        { emptyObj with type_ := some "service-tcp", name := some "S1",
                        port := some (.jnum 0) }
        [("S1", { type_ := "unknown", subnet := none, startIp := none, endIp := none })]
      = (none, false) ∧
    convert_service_udp_object
        { emptyObj with type_ := some "service-tcp", name := some "S1",
                        port := some (.jnum 0) }
        [("S1", { type_ := "unknown", subnet := none, startIp := none, endIp := none })]
      = (none, false) :=
  claim_c9 _ _ (Or.inl rfl)

/-- CLAIM C8.  A network object with a name and a network address may have
prefix length `0`: it converts (is not dropped as unconvertible) and its
block carries the line `set subnet <addr>/0`. -/
theorem claim_c8 (o : SrcObj) (ex : ExIndex)
    (hn : truthyS o.name = true) (hs : truthyS o.subnet4 = true)
    (hm : o.maskLength4 = some 0)
    (hex : lookupEx ex (getS o.name) = none) :
    ∃ b : String, convert_network_object o ex = (some b, false) ∧
      hasSub ("set subnet " ++ getS o.subnet4 ++ "/0").data b.data = true := by
  refine ⟨"config firewall address\n    edit \"" ++ getS o.name ++
      "\"\n        set type ipmask\n        set subnet " ++ getS o.subnet4 ++ "/" ++
      toString ((some (0 : Int)).getD 0) ++ "\n" ++
      commentPart o.comments ++ "    next\nend", ?_, ?_⟩
  · simp [convert_network_object, hn, hs, hm, hex]
  · have h0 : toString ((some (0 : Int)).getD 0) = "0" := rfl
    rw [h0]
    have hrw :
        ("config firewall address\n    edit \"" ++ getS o.name ++
          "\"\n        set type ipmask\n        set subnet " ++ getS o.subnet4 ++ "/" ++
          "0" ++ "\n" ++ commentPart o.comments ++ "    next\nend").data =
        ("config firewall address\n    edit \"" ++ getS o.name ++
          "\"\n        set type ipmask\n        ").data ++
        ("set subnet " ++ getS o.subnet4 ++ "/0").data ++
        ("\n" ++ commentPart o.comments ++ "    next\nend").data := by
      simp only [String.data_append]
      simp [String.data_append]
    rw [hrw, hasSub_of_append]

/-- The concrete `/0` network object of the C8 witness. -/
def c8obj : SrcObj :=
  { emptyObj with type_ := some "network", name := some "N0",
                  subnet4 := some "10.0.0.0", maskLength4 := some 0 }

/-- Witness for C8: a `/0` network object against an empty index. -/
theorem claim_c8_witness :
    ∃ b : String,
      convert_network_object c8obj [] = (some b, false) ∧
      hasSub ("set subnet " ++ getS c8obj.subnet4 ++ "/0").data b.data = true :=
  claim_c8 _ [] (by decide) (by decide) rfl rfl

/-- CLAIM C10.  A member identifier whose indexed object carries no truthy
name is dropped from the resolved member list exactly as an identifier absent
from the index is, leaving the order of the remaining members unchanged. -/
theorem claim_c10 (u : UidIndex) (uid : String) (ms1 ms2 : List String)
    (h : lookupUid u uid = none ∨
         ∃ o : SrcObj, lookupUid u uid = some o ∧ truthyS o.name = false) :
    resolveMemberNames u (ms1 ++ uid :: ms2) = resolveMemberNames u (ms1 ++ ms2) := by
  have hdrop :
      (match lookupUid u uid with
        | some o =>
          match o.name with
          | some nm => if nm != "" then some nm else none
          | none => none
        | none => none) = (none : Option String) := by
    rcases h with h | ⟨o, ho, hname⟩
    · simp [h]
    · rw [ho]
      show (match o.name with
        | some nm => if nm != "" then some nm else none
        | none => none) = (none : Option String)
      cases hn : o.name with
      | none => rfl
      | some nm =>
        rw [hn] at hname
        simp [truthyS] at hname
        simp [hname]
  simp only [resolveMemberNames, List.filterMap_append, List.filterMap_cons, hdrop]

/-- Witness for C10: `u9` maps to a nameless object, so a member list
containing it resolves as if `u9` were absent. -/
theorem claim_c10_witness :
    resolveMemberNames
        [("u1", { emptyObj with name := some "A" }), ("u9", emptyObj)]
        (["u1"] ++ "u9" :: ["u1"]) =
      resolveMemberNames
        [("u1", { emptyObj with name := some "A" }), ("u9", emptyObj)]
        (["u1"] ++ ["u1"]) :=
  claim_c10 _ _ _ _ (Or.inr ⟨emptyObj, rfl, rfl⟩)

/-- CLAIM C5.  A group with a truthy name and a non-empty member list whose
name is not in the existing index always yields a block: the members are
resolved through the identifier index in input order, unresolved identifiers
are dropped, and when nothing resolves the block simply has no member line
(`memberPart [] = ""`). -/
theorem claim_c5 (o : SrcObj) (u : UidIndex) (ex : ExIndex)
    (hn : truthyS o.name = true) (hm : o.members ≠ [])
    (hex : lookupEx ex (getS o.name) = none) :
    convert_group_object o u ex =
      (some ("config firewall addrgrp\n    edit \"" ++ getS o.name ++ "\"\n" ++
        memberPart (o.members.filterMap (fun uid =>
          match lookupUid u uid with
          | some mo =>
            match mo.name with
            | some nm => if nm != "" then some nm else none
            | none => none
          | none => none)) ++
        commentPart o.comments ++ "    next\nend"), false) ∧
    memberPart [] = "" := by
  constructor
  · simp [convert_group_object, hn, hm, hex, resolveMemberNames]
  · rfl

/-- Witness for C5, the spec's scenario: group `G1` with members `u1`
(resolving to `A`) and `u9` (unresolved). -/
theorem claim_c5_witness :
    convert_group_object
        { emptyObj with type_ := some "group", name := some "G1",
                        members := ["u1", "u9"] }
        [("u1", { emptyObj with name := some "A" })] [] =
      (some ("config firewall addrgrp\n    edit \"" ++
        getS (some "G1") ++ "\"\n" ++
        memberPart ((["u1", "u9"] : List String).filterMap (fun uid =>
          match lookupUid [("u1", { emptyObj with name := some "A" })] uid with
          | some mo =>
            match mo.name with
            | some nm => if nm != "" then some nm else none
            | none => none
          | none => none)) ++
        commentPart "" ++ "    next\nend"), false) ∧
    memberPart [] = "" :=
  claim_c5 _ _ _ (by decide) (by decide) rfl

/-- Transcription of the claim's words: the descriptor computed from an
address-kind object (`host`/`network` give an `ipmask` subnet, a range gives
an `iprange` start/end pair).  Stated from the specification for comparison
with the code's duplicate test. -/
def specComputedDesc (o : SrcObj) : ExDesc :=
  match o.type_ with
  | some "host" =>
    { type_ := "ipmask", subnet := some (getS o.ipv4Address ++ "/32"),
      startIp := none, endIp := none }
  | some "network" =>
    { type_ := "ipmask",
      subnet := some (getS o.subnet4 ++ "/" ++ toString (o.maskLength4.getD 0)),
      startIp := none, endIp := none }
  | some "address-range" =>
    { type_ := "iprange", subnet := none,
      startIp := some (getS o.ipv4AddressFirst), endIp := some (getS o.ipv4AddressLast) }
  | _ => { type_ := "unknown", subnet := none, startIp := none, endIp := none }

/-- Transcription of the claim's words: field-for-field descriptor equality,
which per the claim means matching kind together with matching subnet (for
`ipmask`) or matching start/end addresses (for `iprange`). -/
def specDescMatches (e c : ExDesc) : Bool :=
  e.type_ == c.type_ &&
  (if c.type_ == "ipmask" then e.subnet == c.subnet
   else e.startIp == c.startIp && e.endIp == c.endIp)

/-- Transcription of the claim's words: an address-kind object is a
duplicate when the index holds a field-for-field matching entry under its
name; a service or group object is a duplicate when the index holds any
entry under its name. -/
def duplicateSpec (o : SrcObj) (ex : ExIndex) : Bool :=
  match o.type_ with
  | some "host" | some "network" | some "address-range" =>
    (match lookupEx ex (getS o.name) with
     | some e => specDescMatches e (specComputedDesc o)
     | none => false)
  | some "service-tcp" | some "service-udp" | some "group" =>
    (lookupEx ex (getS o.name)).isSome
  | _ => false

lemma completeB_supported (o : SrcObj) (h : completeB o = true) : supportedB o = true := by
  unfold completeB at h
  split at h <;> simp_all [supportedB]

/-- CLAIM C1.  For a complete supported object, the conversion classifies it
as a duplicate (no block, duplicate flag set) exactly when the claim's
duplicate rule holds of the existing index: field-for-field descriptor match
for host/network/range, bare name match for services and groups. -/
theorem claim_c1 (o : SrcObj) (u : UidIndex) (ex : ExIndex)
    (hc : completeB o = true) :
    convertAny o u ex = (none, true) ↔ duplicateSpec o ex = true := by
  rcases supportedB_cases o (completeB_supported o hc) with ht | ht | ht | ht | ht | ht
  · rw [convertAny_of_not_group o u ex (by simp [isGroupType, ht])]
    simp only [completeB, ht, Bool.and_eq_true] at hc
    obtain ⟨hn, hi⟩ := hc
    simp only [convertSimple, ht, convert_host_object, hn, hi, duplicateSpec,
      specComputedDesc, specDescMatches]
    cases hl : lookupEx ex (getS o.name) with
    | none => simp
    | some e =>
      cases hd : (e.type_ == "ipmask" && e.subnet == some (getS o.ipv4Address ++ "/32")) with
      | true => simp [hd]
      | false => simp [hd]
  · rw [convertAny_of_not_group o u ex (by simp [isGroupType, ht])]
    simp only [completeB, ht, Bool.and_eq_true] at hc
    obtain ⟨⟨hn, hs⟩, hm⟩ := hc
    have hm2 : (o.maskLength4 == none) = false := by
      cases hmm : o.maskLength4 with
      | none => rw [hmm] at hm; simp at hm
      | some v => simp
    simp only [convertSimple, ht, convert_network_object, hn, hs, hm2, duplicateSpec,
      specComputedDesc, specDescMatches]
    cases hl : lookupEx ex (getS o.name) with
    | none => simp
    | some e =>
      cases hd : (e.type_ == "ipmask" &&
          e.subnet == some (getS o.subnet4 ++ "/" ++ toString (o.maskLength4.getD 0))) with
      | true => simp [hd]
      | false => simp [hd]
  · rw [convertAny_of_not_group o u ex (by simp [isGroupType, ht])]
    simp only [completeB, ht, Bool.and_eq_true] at hc
    obtain ⟨⟨hn, hf⟩, hl2⟩ := hc
    simp only [convertSimple, ht, convert_range_object, hn, hf, hl2, duplicateSpec,
      specComputedDesc, specDescMatches]
    cases hl : lookupEx ex (getS o.name) with
    | none => simp
    | some e => simp [specDescMatches, specComputedDesc, ht]
  · rw [convertAny_of_not_group o u ex (by simp [isGroupType, ht])]
    simp only [completeB, ht, Bool.and_eq_true] at hc
    obtain ⟨hn, hp⟩ := hc
    simp only [convertSimple, ht, convert_service_tcp_object, hn, hp, duplicateSpec]
    cases hl : lookupEx ex (getS o.name) with
    | none => simp
    | some e => simp
  · rw [convertAny_of_not_group o u ex (by simp [isGroupType, ht])]
    simp only [completeB, ht, Bool.and_eq_true] at hc
    obtain ⟨hn, hp⟩ := hc
    simp only [convertSimple, ht, convert_service_udp_object, hn, hp, duplicateSpec]
    cases hl : lookupEx ex (getS o.name) with
    | none => simp
    | some e => simp
  · rw [convertAny_group o u ex ht]
    simp only [completeB, ht, Bool.and_eq_true] at hc
    obtain ⟨hn, hm⟩ := hc
    have hm2 : (o.members == []) = false := by
      cases hmm : o.members with
      | nil => rw [hmm] at hm; simp at hm
      | cons a t => simp
    simp only [convert_group_object, hn, hm2, duplicateSpec, ht]
    cases hl : lookupEx ex (getS o.name) with
    | none => simp
    | some e => simp

/-- The concrete host of the C1 witness. -/
def c1host : SrcObj :=
  { emptyObj with type_ := some "host", name := some "H1",
                  ipv4Address := some "10.0.0.1" }

/-- The concrete index of the C1 witness, holding a matching entry for `H1`. -/
def c1ex : ExIndex :=
  [("H1", { type_ := "ipmask", subnet := some "10.0.0.1/32",
            startIp := none, endIp := none })]

/-- Witness for C1: the host `H1` against a matching index and against an
empty index. -/
theorem claim_c1_witness :
    (convertAny c1host [] c1ex = (none, true) ↔ duplicateSpec c1host c1ex = true) ∧
    (convertAny c1host [] [] = (none, true) ↔ duplicateSpec c1host [] = true) :=
  ⟨claim_c1 _ _ _ (by decide), claim_c1 _ _ _ (by decide)⟩

/-- The block a conversion result contributes to the output: nothing for a
duplicate, the command when it is present and truthy. -/
def resBlock (r : Option String × Bool) : Option String :=
  if r.2 then none
  else
    match r.1 with
    | some c => if c != "" then some c else none
    | none => none

lemma accStep_eq (acc : List String × Nat) (r : Option String × Bool) :
    accStep acc r =
      (acc.1 ++ (resBlock r).toList, acc.2 + if r.2 then 1 else 0) := by
  rcases acc with ⟨bs, k⟩
  cases hd : r.2 with
  | true => simp [accStep, resBlock, hd]
  | false =>
    cases hc : r.1 with
    | none => simp [accStep, resBlock, hd, hc]
    | some c =>
      cases he : (c != "") with
      | true => simp [accStep, resBlock, hd, hc, he]
      | false => simp [accStep, resBlock, hd, hc, he]

lemma foldl_accStep (f : SrcObj → Option String × Bool) (l : List SrcObj)
    (bs : List String) (k : Nat) :
    l.foldl (fun acc o => accStep acc (f o)) (bs, k) =
      (bs ++ l.filterMap (fun o => resBlock (f o)),
       k + l.countP (fun o => (f o).2)) := by
  induction l generalizing bs k with
  | nil => simp
  | cons o t ih =>
    rw [List.foldl_cons, accStep_eq, ih]
    have hfm : (o :: t).filterMap (fun a => resBlock (f a)) =
        (resBlock (f o)).toList ++ t.filterMap (fun a => resBlock (f a)) := by
      cases hro : resBlock (f o) <;> simp [List.filterMap_cons, hro]
    have hcp : (o :: t).countP (fun a => (f a).2) =
        (if (f o).2 then 1 else 0) + t.countP (fun a => (f a).2) := by
      cases h2 : (f o).2 <;> simp [List.countP_cons, h2, Nat.add_comm]
    rw [hfm, hcp]
    simp [List.append_assoc, Nat.add_assoc]

lemma countP_filter_split (p q : SrcObj → Bool) (l : List SrcObj) :
    (l.filter (fun o => !q o)).countP p + (l.filter q).countP p = l.countP p := by
  induction l with
  | nil => simp
  | cons o t ih =>
    cases hq : q o with
    | true =>
      cases hp : p o <;>
        simp [List.filter_cons, hq, List.countP_cons, hp, ← ih] <;> omega
    | false =>
      cases hp : p o <;>
        simp [List.filter_cons, hq, List.countP_cons, hp, ← ih] <;> omega

/-- Characterization of the pipeline: the blocks are exactly the non-dropped
conversions of the non-group objects in order, followed by those of the
group objects in order, and the count is the number of duplicate results. -/
lemma convert_objects_spec (objs : List SrcObj) (ex : ExIndex) :
    convert_objects objs ex =
      ((objs.filter (fun o => !isGroupType o)).filterMap
          (fun o => resBlock (convertAny o (buildUidIndex objs) ex)) ++
        (objs.filter isGroupType).filterMap
          (fun o => resBlock (convertAny o (buildUidIndex objs) ex)),
       objs.countP (fun o => (convertAny o (buildUidIndex objs) ex).2)) := by
  cases hobjs : objs with
  | nil => simp [convert_objects]
  | cons o0 t0 =>
    rw [← hobjs]
    have hne : objs.isEmpty = false := by rw [hobjs]; rfl
    unfold convert_objects
    rw [hne]
    simp only [Bool.false_eq_true, if_false]
    rw [foldl_accStep, foldl_accStep]
    have hsimp :
        (objs.filter (fun o => !isGroupType o)).filterMap
            (fun o => resBlock (convertSimple o ex)) =
        (objs.filter (fun o => !isGroupType o)).filterMap
            (fun o => resBlock (convertAny o (buildUidIndex objs) ex)) := by
      apply List.filterMap_congr
      intro a ha
      rw [convertAny_of_not_group a (buildUidIndex objs) ex
        (by simpa using (List.mem_filter.mp ha).2)]
    have hgrp :
        (objs.filter isGroupType).filterMap
            (fun o => resBlock (convert_group_object o (buildUidIndex objs) ex)) =
        (objs.filter isGroupType).filterMap
            (fun o => resBlock (convertAny o (buildUidIndex objs) ex)) := by
      apply List.filterMap_congr
      intro a ha
      have hga := (List.mem_filter.mp ha).2
      rw [convertAny_group a (buildUidIndex objs) ex
        (by simpa [isGroupType] using hga)]
    have hcs :
        (objs.filter (fun o => !isGroupType o)).countP
            (fun o => (convertSimple o ex).2) =
        (objs.filter (fun o => !isGroupType o)).countP
            (fun o => (convertAny o (buildUidIndex objs) ex).2) := by
      apply List.countP_congr
      intro a ha
      rw [convertAny_of_not_group a (buildUidIndex objs) ex
        (by simpa using (List.mem_filter.mp ha).2)]
    have hcg :
        (objs.filter isGroupType).countP
            (fun o => (convert_group_object o (buildUidIndex objs) ex).2) =
        (objs.filter isGroupType).countP
            (fun o => (convertAny o (buildUidIndex objs) ex).2) := by
      apply List.countP_congr
      intro a ha
      have hga := (List.mem_filter.mp ha).2
      rw [convertAny_group a (buildUidIndex objs) ex
        (by simpa [isGroupType] using hga)]
    rw [hsimp, hgrp, hcs, hcg]
    simp only [List.nil_append, Nat.zero_add]
    rw [countP_filter_split (fun o => (convertAny o (buildUidIndex objs) ex).2) isGroupType]

/-- CLAIM C3.  The pipeline's output is the ordered blocks of the converted
non-group objects followed by the ordered blocks of the converted group
objects; duplicates only increment the count, skips contribute nothing. -/
theorem claim_c3 (objs : List SrcObj) (ex : ExIndex) :
    convert_objects objs ex =
      ((objs.filter (fun o => !isGroupType o)).filterMap
          (fun o => resBlock (convertAny o (buildUidIndex objs) ex)) ++
        (objs.filter isGroupType).filterMap
          (fun o => resBlock (convertAny o (buildUidIndex objs) ex)),
       objs.countP (fun o => (convertAny o (buildUidIndex objs) ex).2)) :=
  convert_objects_spec objs ex

lemma data_ne_nil_append (a b : String) (ha : a.data ≠ []) : (a ++ b).data ≠ [] := by
  rw [String.data_append]
  intro h
  exact ha (List.append_eq_nil.mp h).1

lemma str_ne_empty_of_data (a : String) (h : a.data ≠ []) : a ≠ "" := by
  intro he
  rw [he] at h
  exact h rfl

/-- A complete object either is a duplicate or yields a non-empty block. -/
lemma convertAny_complete_cases (o : SrcObj) (u : UidIndex) (ex : ExIndex)
    (hc : completeB o = true) :
    convertAny o u ex = (none, true) ∨
    ∃ b, convertAny o u ex = (some b, false) ∧ b ≠ "" := by
  rcases supportedB_cases o (completeB_supported o hc) with ht | ht | ht | ht | ht | ht
  · rw [convertAny_of_not_group o u ex (by simp [isGroupType, ht])]
    simp only [completeB, ht, Bool.and_eq_true] at hc
    obtain ⟨hn, hi⟩ := hc
    simp only [convertSimple, ht, convert_host_object, hn, hi, Bool.not_true,
      Bool.or_self, Bool.false_eq_true, if_false]
    split
    · exact Or.inl rfl
    · refine Or.inr ⟨_, rfl, ?_⟩
      apply str_ne_empty_of_data
      repeat apply data_ne_nil_append
      decide
  · rw [convertAny_of_not_group o u ex (by simp [isGroupType, ht])]
    simp only [completeB, ht, Bool.and_eq_true] at hc
    obtain ⟨⟨hn, hs⟩, hm⟩ := hc
    have hm2 : (o.maskLength4 == none) = false := by
      cases hmm : o.maskLength4 with
      | none => rw [hmm] at hm; simp at hm
      | some v => simp
    simp only [convertSimple, ht, convert_network_object, hn, hs, hm2, Bool.not_true,
      Bool.or_self, Bool.or_false, Bool.false_eq_true, if_false]
    split
    · exact Or.inl rfl
    · refine Or.inr ⟨_, rfl, ?_⟩
      apply str_ne_empty_of_data
      repeat apply data_ne_nil_append
      decide
  · rw [convertAny_of_not_group o u ex (by simp [isGroupType, ht])]
    simp only [completeB, ht, Bool.and_eq_true] at hc
    obtain ⟨⟨hn, hf⟩, hl⟩ := hc
    simp only [convertSimple, ht, convert_range_object, hn, hf, hl, Bool.not_true,
      Bool.or_self, Bool.false_eq_true, if_false]
    split
    · exact Or.inl rfl
    · refine Or.inr ⟨_, rfl, ?_⟩
      apply str_ne_empty_of_data
      repeat apply data_ne_nil_append
      decide
  · rw [convertAny_of_not_group o u ex (by simp [isGroupType, ht])]
    simp only [completeB, ht, Bool.and_eq_true] at hc
    obtain ⟨hn, hp⟩ := hc
    simp only [convertSimple, ht, convert_service_tcp_object, hn, hp, Bool.not_true,
      Bool.or_self, Bool.false_eq_true, if_false]
    split
    · exact Or.inl rfl
    · refine Or.inr ⟨_, rfl, ?_⟩
      apply str_ne_empty_of_data
      repeat apply data_ne_nil_append
      decide
  · rw [convertAny_of_not_group o u ex (by simp [isGroupType, ht])]
    simp only [completeB, ht, Bool.and_eq_true] at hc
    obtain ⟨hn, hp⟩ := hc
    simp only [convertSimple, ht, convert_service_udp_object, hn, hp, Bool.not_true,
      Bool.or_self, Bool.false_eq_true, if_false]
    split
    · exact Or.inl rfl
    · refine Or.inr ⟨_, rfl, ?_⟩
      apply str_ne_empty_of_data
      repeat apply data_ne_nil_append
      decide
  · rw [convertAny_group o u ex ht]
    simp only [completeB, ht, Bool.and_eq_true] at hc
    obtain ⟨hn, hm⟩ := hc
    have hm2 : (o.members == []) = false := by
      cases hmm : o.members with
      | nil => rw [hmm] at hm; simp at hm
      | cons a t => simp
    simp only [convert_group_object, hn, hm2, Bool.not_true, Bool.or_self,
      Bool.or_false, Bool.false_eq_true, if_false]
    split
    · exact Or.inl rfl
    · refine Or.inr ⟨_, rfl, ?_⟩
      apply str_ne_empty_of_data
      repeat apply data_ne_nil_append
      decide

lemma resBlock_of_dup (r : Option String × Bool) (h : r.2 = true) :
    resBlock r = none := by
  simp [resBlock, h]

lemma countP_disjoint_add (p q : SrcObj → Bool) (l : List SrcObj)
    (h : ∀ o ∈ l, ¬(p o = true ∧ q o = true)) :
    l.countP p + l.countP q = l.countP (fun o => p o || q o) := by
  induction l with
  | nil => simp
  | cons o t ih =>
    have ho := h o (by simp)
    have htl : ∀ a ∈ t, ¬(p a = true ∧ q a = true) :=
      fun a hm => h a (List.mem_cons_of_mem _ hm)
    cases hp : p o with
    | true =>
      cases hq : q o with
      | true => exact absurd ⟨hp, hq⟩ ho
      | false =>
        simp only [List.countP_cons, hp, hq, ← ih htl]
        simp
        omega
    | false =>
      cases hq : q o with
      | true =>
        simp only [List.countP_cons, hp, hq, ← ih htl]
        simp
        omega
      | false =>
        simp only [List.countP_cons, hp, hq, ← ih htl]
        simp

/-- Whether an object contributes one unit to `duplicates + blocks`. -/
lemma contributes_iff_complete (o : SrcObj) (u : UidIndex) (ex : ExIndex) :
    ((convertAny o u ex).2 || (resBlock (convertAny o u ex)).isSome) = true ↔
      completeB o = true := by
  constructor
  · intro h
    by_contra hcn
    rw [Bool.not_eq_true] at hcn
    rw [convertAny_incomplete o u ex hcn] at h
    simp [resBlock] at h
  · intro hc
    rcases convertAny_complete_cases o u ex hc with hd | ⟨b, hb, hne⟩
    · rw [hd]
      simp
    · rw [hb]
      have : (b != "") = true := by simpa using hne
      simp [resBlock, this]

/-- CLAIM C4.  `duplicateCount + blocks.length` never exceeds the number of
input objects, and reaches it exactly when every input object is of a
supported kind with all required fields present. -/
theorem claim_c4 (objs : List SrcObj) (ex : ExIndex) :
    (convert_objects objs ex).2 + (convert_objects objs ex).1.length ≤ objs.length ∧
    ((convert_objects objs ex).2 + (convert_objects objs ex).1.length = objs.length ↔
      ∀ o ∈ objs, completeB o = true) := by
  rw [convert_objects_spec]
  simp only [List.length_append, List.length_filterMap_eq_countP]
  rw [countP_filter_split
    (fun o => (resBlock (convertAny o (buildUidIndex objs) ex)).isSome) isGroupType]
  rw [countP_disjoint_add
    (fun o => (convertAny o (buildUidIndex objs) ex).2)
    (fun o => (resBlock (convertAny o (buildUidIndex objs) ex)).isSome) objs
    (fun o _ h => by
      have h1 : (convertAny o (buildUidIndex objs) ex).2 = true := h.1
      have h2 : (resBlock (convertAny o (buildUidIndex objs) ex)).isSome = true := h.2
      rw [resBlock_of_dup _ h1] at h2
      simp at h2)]
  constructor
  · exact List.countP_le_length _
  · rw [List.countP_eq_length]
    constructor
    · intro h o hm
      exact (contributes_iff_complete o (buildUidIndex objs) ex).mp (h o hm)
    · intro h o hm
      exact (contributes_iff_complete o (buildUidIndex objs) ex).mpr (h o hm)

lemma lookupEx_isSome_of_mem (ex : ExIndex) (k : String) (v : ExDesc)
    (h : (k, v) ∈ ex) : (lookupEx ex k).isSome = true := by
  induction ex with
  | nil => cases h
  | cons e t ih =>
    rcases List.mem_cons.mp h with he | ht
    · rcases e with ⟨k0, v0⟩
      have : k0 = k := by
        have := congrArg Prod.fst he.symm
        simpa using this
      simp [lookupEx, this]
    · rcases e with ⟨k0, v0⟩
      cases hk : (k0 == k) with
      | true => simp [lookupEx, hk]
      | false => simpa [lookupEx, hk] using ih ht

lemma mem_foldl_sections (l : List (List Char × List Char)) (acc : ExIndex)
    (e : String × ExDesc) (h : e ∈ acc) :
    e ∈ l.foldl (fun m nd => (String.mk nd.1, sectionDescriptor (stripChars nd.2)) :: m) acc := by
  induction l generalizing acc with
  | nil => exact h
  | cons x t ih => exact ih _ (List.mem_cons_of_mem _ h)

lemma section_entry_mem (l : List (List Char × List Char)) (acc : ExIndex)
    (nm d : List Char) (h : (nm, d) ∈ l) :
    (String.mk nm, sectionDescriptor (stripChars d)) ∈
      l.foldl (fun m nd => (String.mk nd.1, sectionDescriptor (stripChars nd.2)) :: m) acc := by
  induction l generalizing acc with
  | nil => cases h
  | cons x t ih =>
    rcases List.mem_cons.mp h with he | ht
    · rw [List.foldl_cons]
      apply mem_foldl_sections
      rw [← he]
      exact List.mem_cons_self _ _
    · exact ih _ ht

/-- CLAIM C7.  Every section matched by the loader's regex contributes a
descriptor to the index (the load never aborts on a malformed section), and
a section body without a recognizable `set type` line yields the `unknown`
descriptor with no address facts. -/
theorem claim_c7 (content : String) (nm d : List Char)
    (hmem : (nm, d) ∈ scanSections content.data) :
    (lookupEx (load_existing_fortigate_config content) (String.mk nm)).isSome = true ∧
    (searchAux matchTypeWord (stripChars d) = none →
      sectionDescriptor (stripChars d) =
        { type_ := "unknown", subnet := none, startIp := none, endIp := none }) := by
  constructor
  · exact lookupEx_isSome_of_mem _ _ _
      (section_entry_mem (scanSections content.data) [] nm d hmem)
  · intro hnone
    simp only [sectionDescriptor, hnone]
    split_ifs with h1 h2
    · exact absurd h1 (by decide)
    · exact absurd h2 (by decide)
    · rfl

/-- The concrete config text of the C7 witness: a well-formed `ipmask`
section followed by a section whose body has no type line. -/
def c7content : String :=
  "edit \"A\"\n    set type ipmask\n    set subnet 1.2.3.4/32\nnext\nedit \"B\"\n    garbage\nnext\n"

/-- Witness for C7: the malformed section `B` of `c7content` still lands in
the index, with the `unknown` descriptor. -/
theorem claim_c7_witness :
    (lookupEx (load_existing_fortigate_config c7content) (String.mk "B".data)).isSome = true ∧
    (searchAux matchTypeWord (stripChars "\n    garbage\n".data) = none →
      sectionDescriptor (stripChars "\n    garbage\n".data) =
        { type_ := "unknown", subnet := none, startIp := none, endIp := none }) :=
  claim_c7 c7content "B".data "\n    garbage\n".data (by decide)

/-- The concrete host of the C2 counterexample: its address `abc` renders a
`set subnet abc/32` line the loader's numeric subnet regex cannot recover,
so the second run fails to recognize the duplicate. -/
def c2host : SrcObj :=
  { emptyObj with type_ := some "host", name := some "N", ipv4Address := some "abc" }

/-- Counterexample to CLAIM C2 as stated: feeding the first run's output
back as the existing configuration does not always yield zero blocks and a
duplicate count equal to the first run's block count. -/
theorem claim_c2_counterexample :
    convert_objects [c2host]
        (load_existing_fortigate_config (joinBlocks (convert_objects [c2host] []).1)) ≠
      ([], (convert_objects [c2host] []).1.length) := by
  decide

lemma splitAtNext_decomp (l d r : List Char) (h : splitAtNext l = some (d, r)) :
    l = d ++ 'n' :: 'e' :: 'x' :: 't' :: r := by
  induction l generalizing d with
  | nil => simp [splitAtNext] at h
  | cons c t ih =>
    rw [splitAtNext.eq_def] at h
    split at h
    · rename_i heq
      simp only [Option.some.injEq, Prod.mk.injEq] at h
      obtain ⟨hd, hr⟩ := h
      subst hd
      subst hr
      simpa using heq
    · rename_i c1 r1 heq
      split at h
      · rename_i d1 r2 hsp
        simp only [Option.some.injEq, Prod.mk.injEq] at h
        obtain ⟨hd, hr⟩ := h
        subst hd
        subst hr
        injection heq with hc ht
        subst hc
        subst ht
        simp [List.cons_append, ih d1 hsp]
      · simp at h
    · simp at h

lemma parseEdit_some (l r : List Char) (h : parseEdit l = some r) :
    l = 'e' :: 'd' :: 'i' :: 't' :: r := by
  rw [parseEdit.eq_def] at h
  split at h
  · rename_i r0
    injection h with h1
    rw [h1]
  · cases h

lemma parseWs_some (l r : List Char) (h : parseWs l = some r) :
    l = l.takeWhile isSpaceCh ++ r ∧ l.takeWhile isSpaceCh ≠ [] := by
  unfold parseWs at h
  split at h
  · cases h
  · rename_i hne
    injection h with h1
    constructor
    · rw [← h1]
      exact (List.takeWhile_append_dropWhile isSpaceCh l).symm
    · simpa using hne

lemma parseQuote_some (l r : List Char) (h : parseQuote l = some r) :
    l = '"' :: r := by
  rw [parseQuote.eq_def] at h
  split at h
  · rename_i r0
    injection h with h1
    rw [h1]
  · cases h

lemma parseName_some (l nm r : List Char) (h : parseName l = some (nm, r)) :
    l = nm ++ '"' :: r ∧ nm ≠ [] := by
  unfold parseName at h
  split at h
  · cases h
  · rename_i hne
    split at h
    · rename_i r0 heq
      injection h with h1
      simp only [Prod.mk.injEq] at h1
      obtain ⟨h2, h3⟩ := h1
      constructor
      · calc l = l.takeWhile (fun c => c != '"') ++ l.dropWhile (fun c => c != '"') :=
              (List.takeWhile_append_dropWhile _ l).symm
          _ = nm ++ '"' :: r := by rw [heq, h2, h3]
      · rw [← h2]
        simpa using hne
    · cases h

lemma tryMatch_decomp (l nm d rest : List Char) (h : tryMatch l = some (nm, d, rest)) :
    ∃ ws, l = 'e' :: 'd' :: 'i' :: 't' ::
        (ws ++ '"' :: (nm ++ '"' :: (d ++ 'n' :: 'e' :: 'x' :: 't' :: rest))) ∧
      ws ≠ [] ∧ nm ≠ [] := by
  simp only [tryMatch, Option.bind_eq_some, Option.some.injEq] at h
  obtain ⟨r, he, r1, hws, r2, hq, ⟨nm0, r3⟩, hname, ⟨d0, rest0⟩, hsp, hfin⟩ := h
  simp only [Prod.mk.injEq] at hfin
  obtain ⟨hf1, hf2, hf3⟩ := hfin
  have hsp2 : splitAtNext r3 = some (d, rest) := by
    rw [← hf2, ← hf3]
    exact hsp
  have hr3 := splitAtNext_decomp _ _ _ hsp2
  obtain ⟨hweq, hwne⟩ := parseWs_some _ _ hws
  obtain ⟨hneq, hnne⟩ := parseName_some _ _ _ hname
  refine ⟨r.takeWhile isSpaceCh, ?_, hwne, by rw [← hf1]; exact hnne⟩
  rw [parseEdit_some _ _ he]
  congr 1
  conv_lhs => rw [hweq, parseQuote_some _ _ hq, hneq, hr3, hf1]

lemma tryMatch_rest_lt (l nm d rest : List Char) (h : tryMatch l = some (nm, d, rest)) :
    rest.length < l.length := by
  obtain ⟨ws, hl, _, _⟩ := tryMatch_decomp l nm d rest h
  subst hl
  simp [List.length_append]
  omega

lemma scanGo_nil (f : Nat) : scanGo f [] = [] := by
  cases f <;> rfl

lemma scanGo_congr (f : Nat) : ∀ (g : Nat) (l : List Char),
    l.length ≤ f → l.length ≤ g → scanGo f l = scanGo g l := by
  induction f with
  | zero =>
    intro g l hf _
    have : l = [] := List.length_eq_zero.mp (Nat.le_zero.mp hf)
    subst this
    rw [scanGo_nil, scanGo_nil]
  | succ f ih =>
    intro g l hf hg
    cases l with
    | nil => rw [scanGo_nil, scanGo_nil]
    | cons c t =>
      cases g with
      | zero => simp at hg
      | succ g =>
        cases hm : tryMatch (c :: t) with
        | none =>
          have hf2 : t.length ≤ f := by
            simp only [List.length_cons] at hf
            omega
          have hg2 : t.length ≤ g := by
            simp only [List.length_cons] at hg
            omega
          simp only [scanGo, hm]
          exact ih g t hf2 hg2
        | some v =>
          rcases v with ⟨nm, d, rest⟩
          have hlt := tryMatch_rest_lt _ _ _ _ hm
          simp only [List.length_cons] at hf hg hlt
          simp only [scanGo, hm]
          rw [ih g rest (by omega) (by omega)]

lemma scanSections_cons_none (c : Char) (t : List Char) (h : tryMatch (c :: t) = none) :
    scanSections (c :: t) = scanSections t := by
  unfold scanSections
  simp [scanGo, h]

lemma scanSections_cons_match (l nm d rest : List Char)
    (h : tryMatch l = some (nm, d, rest)) :
    scanSections l = (nm, d) :: scanSections rest := by
  cases l with
  | nil => simp [tryMatch, parseEdit] at h
  | cons c t =>
    have hlt := tryMatch_rest_lt _ _ _ _ h
    unfold scanSections
    simp only [List.length_cons, scanGo, h]
    congr 1
    apply scanGo_congr
    · simp only [List.length_cons] at hlt
      omega
    · exact Nat.le_refl _

/-- A text region is safe to skip during the section scan: no `e` in it is
followed by a `d`, and it does not end in `e`, so the literal `edit` cannot
begin anywhere inside it. -/
def skipOk : List Char → Bool
  | [] => true
  | [c] => c != 'e'
  | c :: c2 :: rest => (c != 'e' || c2 != 'd') && skipOk (c2 :: rest)

lemma parseEdit_ne_e (c : Char) (t : List Char) (h : c ≠ 'e') : parseEdit (c :: t) = none := by
  rw [parseEdit.eq_def]
  split
  · rename_i heq
    injection heq with h1 _
    exact absurd h1 h
  · rfl

lemma parseEdit_e_not_d (c : Char) (t : List Char) (h : c ≠ 'd') :
    parseEdit ('e' :: c :: t) = none := by
  rw [parseEdit.eq_def]
  split
  · rename_i heq
    injection heq with _ heq2
    injection heq2 with h1 _
    exact absurd h1 h
  · rfl

lemma tryMatch_ne_e (c : Char) (t : List Char) (h : c ≠ 'e') : tryMatch (c :: t) = none := by
  simp [tryMatch, parseEdit_ne_e c t h]

lemma tryMatch_e_not_d (c : Char) (t : List Char) (h : c ≠ 'd') :
    tryMatch ('e' :: c :: t) = none := by
  simp [tryMatch, parseEdit_e_not_d c t h]

lemma scan_skip (cs : List Char) (l : List Char) (h : skipOk cs = true) :
    scanSections (cs ++ l) = scanSections l := by
  induction cs with
  | nil => rfl
  | cons c rest ih =>
    have hstep : tryMatch (c :: (rest ++ l)) = none := by
      by_cases hce : c = 'e'
      · subst hce
        cases rest with
        | nil => simp [skipOk] at h
        | cons c2 r2 =>
          have hc2 : c2 ≠ 'd' := by
            simp [skipOk] at h
            exact h.1
          exact tryMatch_e_not_d _ _ hc2
      · exact tryMatch_ne_e _ _ hce
    have hskip : skipOk rest = true := by
      cases rest with
      | nil => rfl
      | cons c2 r2 =>
        simp [skipOk] at h ⊢
        exact h.2
    calc scanSections ((c :: rest) ++ l)
        = scanSections (rest ++ l) := scanSections_cons_none _ _ hstep
      _ = scanSections l := ih hskip

lemma splitAtNext_not_fire (c : Char) (rest : List Char)
    (h : ¬(c = 'n' ∧ startsWithL ['e', 'x', 't'] rest = true)) :
    splitAtNext (c :: rest) =
      match splitAtNext rest with
      | some (d, r) => some (c :: d, r)
      | none => none := by
  rw [splitAtNext.eq_def]
  split
  · rename_i heq
    exfalso
    apply h
    injection heq with h1 h2
    refine ⟨h1, ?_⟩
    rw [h2]
    simp [startsWithL]
  · rename_i c1 r1 heq
    injection heq with h1 h2
    subst h1
    subst h2
    rfl
  · rename_i heq
    cases heq

lemma splitAtNext_exact (d r : List Char) (hdx : ∀ c ∈ d, c ≠ 'x') :
    splitAtNext (d ++ 'n' :: 'e' :: 'x' :: 't' :: r) = some (d, r) := by
  induction d with
  | nil => rfl
  | cons c t ih =>
    have hfire : ¬(c = 'n' ∧
        startsWithL ['e', 'x', 't'] (t ++ 'n' :: 'e' :: 'x' :: 't' :: r) = true) := by
      rintro ⟨hc, hs⟩
      cases t with
      | nil => simp [startsWithL] at hs
      | cons a t1 =>
        cases t1 with
        | nil => simp [startsWithL] at hs
        | cons b t2 =>
          simp only [List.cons_append, startsWithL, Bool.and_eq_true, beq_iff_eq] at hs
          exact hdx b (by simp) hs.2.1.symm
    rw [List.cons_append, splitAtNext_not_fire c _ hfire,
      ih (fun x hx => hdx x (List.mem_cons_of_mem _ hx))]

lemma takeWhile_append_stop (p : Char → Bool) (a : List Char) (b : Char) (z : List Char)
    (ha : ∀ c ∈ a, p c = true) (hb : p b = false) :
    (a ++ b :: z).takeWhile p = a := by
  induction a with
  | nil => simp [List.takeWhile_cons, hb]
  | cons c t ih =>
    have hc := ha c (by simp)
    have iht := ih (fun x hx => ha x (by simp [hx]))
    simp [List.takeWhile_cons, hc, iht]

lemma dropWhile_append_stop (p : Char → Bool) (a : List Char) (b : Char) (z : List Char)
    (ha : ∀ c ∈ a, p c = true) (hb : p b = false) :
    (a ++ b :: z).dropWhile p = b :: z := by
  induction a with
  | nil => simp [List.dropWhile_cons, hb]
  | cons c t ih =>
    simp only [List.cons_append, List.dropWhile_cons, ha c (by simp), if_true]
    exact ih (fun x hx => ha x (by simp [hx]))

lemma tryMatch_edit (n d rest : List Char)
    (hn : n ≠ []) (hnq : ∀ c ∈ n, c ≠ '"') (hdx : ∀ c ∈ d, c ≠ 'x') :
    tryMatch ('e' :: 'd' :: 'i' :: 't' :: ' ' :: '"' ::
        (n ++ '"' :: (d ++ 'n' :: 'e' :: 'x' :: 't' :: rest))) =
      some (n, d, rest) := by
  have hq : ∀ c ∈ n, (c != '"') = true := fun c hc => by simpa using hnq c hc
  have hws : parseWs (' ' :: '"' :: (n ++ '"' :: (d ++ 'n' :: 'e' :: 'x' :: 't' :: rest))) =
      some ('"' :: (n ++ '"' :: (d ++ 'n' :: 'e' :: 'x' :: 't' :: rest))) := rfl
  have hnm : parseName (n ++ '"' :: (d ++ 'n' :: 'e' :: 'x' :: 't' :: rest)) =
      some (n, d ++ 'n' :: 'e' :: 'x' :: 't' :: rest) := by
    unfold parseName
    rw [takeWhile_append_stop _ n '"' _ hq rfl, dropWhile_append_stop _ n '"' _ hq rfl]
    simp [hn]
  simp [tryMatch, parseEdit, hws, parseQuote, hnm, splitAtNext_exact d rest hdx]

lemma scan_chunk (pre n d rest : List Char)
    (hpre : skipOk pre = true) (hn : n ≠ []) (hnq : ∀ c ∈ n, c ≠ '"')
    (hdx : ∀ c ∈ d, c ≠ 'x') :
    scanSections (pre ++ 'e' :: 'd' :: 'i' :: 't' :: ' ' :: '"' ::
        (n ++ '"' :: (d ++ 'n' :: 'e' :: 'x' :: 't' :: rest))) =
      (n, d) :: scanSections rest := by
  rw [scan_skip pre _ hpre]
  exact scanSections_cons_match _ _ _ _ (tryMatch_edit n d rest hn hnq hdx)

/-- Definite mismatch of a literal within the visible part of the text:
some character of `l` differs from the corresponding character of `key`. -/
def litMismatch : List Char → List Char → Bool
  | [], _ => false
  | _ :: _, [] => false
  | k :: ks, c :: cs => if c != k then true else litMismatch ks cs

lemma dropLit_none_of_mismatch (key l z : List Char) (h : litMismatch key l = true) :
    dropLit key (l ++ z) = none := by
  induction key generalizing l with
  | nil => simp [litMismatch] at h
  | cons k ks ih =>
    cases l with
    | nil => simp [litMismatch] at h
    | cons c cs =>
      by_cases hc : c = k
      · subst hc
        simp only [litMismatch, bne_self_eq_false, Bool.false_eq_true, if_false] at h
        simpa [dropLit] using ih cs h
      · simp [dropLit, hc]

lemma dropLit_self (key z : List Char) : dropLit key (key ++ z) = some z := by
  induction key with
  | nil => rfl
  | cons k ks ih => simp [dropLit, ih]

/-- After `set` has matched, decide (from the visible text alone) that
`\s+KEY` must fail: tracks whether some whitespace was already seen. -/
def probeAfterSet (key : List Char) : Bool → List Char → Bool
  | _, [] => false
  | seen, c :: rest =>
    if isSpaceCh c then probeAfterSet key true rest
    else if !seen then true
    else litMismatch key (c :: rest)

/-- Decide from the visible text that `set\s+KEY\s+...` must fail at this
position, whatever follows the visible text. -/
def probeSetKey (key : List Char) : List Char → Bool
  | [] => false
  | c :: rest =>
    if c != 's' then true
    else
      match rest with
      | [] => false
      | c2 :: rest2 =>
        if c2 != 'e' then true
        else
          match rest2 with
          | [] => false
          | c3 :: rest3 =>
            if c3 != 't' then true
            else probeAfterSet key false rest3

lemma probeAfterSet_sound_true (key : List Char) (val : List Char → Option (List Char))
    (cs z : List Char) (h : probeAfterSet key true cs = true) :
    (match dropLit key ((cs ++ z).dropWhile isSpaceCh) with
     | some r2 =>
       if (r2.takeWhile isSpaceCh).isEmpty then none else val (r2.dropWhile isSpaceCh)
     | none => none) = none := by
  induction cs with
  | nil => simp [probeAfterSet] at h
  | cons c rest ih =>
    by_cases hsp : isSpaceCh c = true
    · simp only [probeAfterSet, hsp, if_true] at h
      simpa [List.dropWhile_cons, hsp] using ih h
    · simp only [probeAfterSet, hsp, Bool.false_eq_true, if_false, Bool.not_true] at h
      have hmm : litMismatch key (c :: rest) = true := by simpa using h
      have hdrop : ((c :: rest) ++ z).dropWhile isSpaceCh = c :: (rest ++ z) := by
        simp [List.dropWhile_cons, hsp]
      rw [hdrop]
      have := dropLit_none_of_mismatch key (c :: rest) z hmm
      simp only [List.cons_append] at this
      rw [this]

lemma probeAfterSet_sound_false (key : List Char) (val : List Char → Option (List Char))
    (cs z : List Char) (h : probeAfterSet key false cs = true) :
    (if (((cs ++ z).takeWhile isSpaceCh).isEmpty) then none
     else
       match dropLit key ((cs ++ z).dropWhile isSpaceCh) with
       | some r2 =>
         if (r2.takeWhile isSpaceCh).isEmpty then none else val (r2.dropWhile isSpaceCh)
       | none => none) = none := by
  cases cs with
  | nil => simp [probeAfterSet] at h
  | cons c rest =>
    by_cases hsp : isSpaceCh c = true
    · simp only [probeAfterSet, hsp, if_true] at h
      have hne : (((c :: rest) ++ z).takeWhile isSpaceCh).isEmpty = false := by
        simp [List.takeWhile_cons, hsp]
      rw [hne]
      have hdrop : ((c :: rest) ++ z).dropWhile isSpaceCh = (rest ++ z).dropWhile isSpaceCh := by
        simp [List.dropWhile_cons, hsp]
      simp only [Bool.false_eq_true, if_false, hdrop]
      exact probeAfterSet_sound_true key val rest z h
    · have hempty : (((c :: rest) ++ z).takeWhile isSpaceCh).isEmpty = true := by
        simp [List.takeWhile_cons, hsp]
      rw [hempty]
      simp

lemma matchSetKey_head_not_set (key : List Char) (val : List Char → Option (List Char))
    (l : List Char)
    (h : ∀ r : List Char, l ≠ 's' :: 'e' :: 't' :: r) :
    matchSetKey key val l = none := by
  rw [matchSetKey.eq_def]
  split
  · exfalso
    exact h _ rfl
  · rfl

lemma probeSetKey_sound (key : List Char) (val : List Char → Option (List Char))
    (cs z : List Char) (h : probeSetKey key cs = true) :
    matchSetKey key val (cs ++ z) = none := by
  cases cs with
  | nil => simp [probeSetKey] at h
  | cons c rest =>
    by_cases hc : c = 's'
    case neg =>
      apply matchSetKey_head_not_set
      intro r heq
      have : c = 's' := by
        have := congrArg (fun l => l.headD 'z') heq
        simpa using this
      exact hc this
    case pos =>
    subst hc
    simp only [probeSetKey, bne_self_eq_false, Bool.false_eq_true, if_false] at h
    cases rest with
    | nil => simp at h
    | cons c2 rest2 =>
      by_cases hc2 : c2 = 'e'
      case neg =>
        apply matchSetKey_head_not_set
        intro r heq
        have : c2 = 'e' := by
          have := congrArg (fun l => l.tail.headD 'z') heq
          simpa using this
        exact hc2 this
      case pos =>
      subst hc2
      simp only [bne_self_eq_false, Bool.false_eq_true, if_false] at h
      cases rest2 with
      | nil => simp at h
      | cons c3 rest3 =>
        by_cases hc3 : c3 = 't'
        case neg =>
          apply matchSetKey_head_not_set
          intro r heq
          have : c3 = 't' := by
            have := congrArg (fun l => l.tail.tail.headD 'z') heq
            simpa using this
          exact hc3 this
        case pos =>
        subst hc3
        simp only [bne_self_eq_false, Bool.false_eq_true, if_false] at h
        have hbody := probeAfterSet_sound_false key val rest3 z h
        rw [matchSetKey.eq_def]
        split
        · rename_i r heq
          have hr : rest3 ++ z = r := by
            simpa using heq
          rw [← hr] at *
          exact hbody
        · rfl

/-- Every position of a visible region definitely fails the `set KEY` regex. -/
def searchSkip (key : List Char) : List Char → Bool
  | [] => true
  | c :: rest => probeSetKey key (c :: rest) && searchSkip key rest

lemma searchAux_cons_none (m : List Char → Option (List Char)) (c : Char) (t : List Char)
    (h : m (c :: t) = none) : searchAux m (c :: t) = searchAux m t := by
  simp [searchAux, h]

lemma searchAux_cons_some (m : List Char → Option (List Char)) (c : Char) (t : List Char)
    (v : List Char) (h : m (c :: t) = some v) : searchAux m (c :: t) = some v := by
  simp [searchAux, h]

lemma searchAux_skip (key : List Char) (val : List Char → Option (List Char))
    (cs z : List Char) (h : searchSkip key cs = true) :
    searchAux (matchSetKey key val) (cs ++ z) = searchAux (matchSetKey key val) z := by
  induction cs with
  | nil => rfl
  | cons c rest ih =>
    simp only [searchSkip, Bool.and_eq_true] at h
    have hnone : matchSetKey key val (c :: (rest ++ z)) = none := by
      have := probeSetKey_sound key val (c :: rest) z h.1
      simpa using this
    calc searchAux (matchSetKey key val) ((c :: rest) ++ z)
        = searchAux (matchSetKey key val) (rest ++ z) := searchAux_cons_none _ _ _ hnone
      _ = searchAux (matchSetKey key val) z := ih h.2

lemma matchSetKey_ne_s (key : List Char) (val : List Char → Option (List Char))
    (c : Char) (t : List Char) (h : c ≠ 's') : matchSetKey key val (c :: t) = none := by
  apply matchSetKey_head_not_set
  intro r heq
  have : c = 's' := by
    have := congrArg (fun l => l.headD 'z') heq
    simpa using this
  exact h this

lemma isSpaceCh_false_of_digitDot (c : Char) (h : isDigitDot c = true) :
    isSpaceCh c = false := by
  cases hsp : isSpaceCh c with
  | false => rfl
  | true =>
    simp only [isSpaceCh, Bool.or_eq_true, beq_iff_eq] at hsp
    have hc : c = ' ' ∨ c = '\t' ∨ c = '\n' ∨ c = '\r' ∨ c = '\x0b' ∨ c = '\x0c' := by
      tauto
    rcases hc with h1 | h1 | h1 | h1 | h1 | h1 <;>
      (subst h1; simp [isDigitDot, Char.isDigit] at h)

lemma ne_s_of_digitDot (c : Char) (h : isDigitDot c = true) : c ≠ 's' := by
  intro he
  subst he
  simp [isDigitDot, Char.isDigit] at h

lemma searchAux_skip_digitDot (key : List Char) (val : List Char → Option (List Char))
    (a z : List Char) (ha : ∀ c ∈ a, isDigitDot c = true) :
    searchAux (matchSetKey key val) (a ++ z) = searchAux (matchSetKey key val) z := by
  induction a with
  | nil => rfl
  | cons c t ih =>
    have hc := ne_s_of_digitDot c (ha c (by simp))
    calc searchAux (matchSetKey key val) ((c :: t) ++ z)
        = searchAux (matchSetKey key val) (t ++ z) :=
          searchAux_cons_none _ _ _ (matchSetKey_ne_s key val c _ hc)
      _ = searchAux (matchSetKey key val) z := ih (fun x hx => ha x (by simp [hx]))

lemma matchSetKey_at (k0 : Char) (ks rest : List Char) (val : List Char → Option (List Char))
    (hk0 : isSpaceCh k0 = false) :
    matchSetKey (k0 :: ks) val ('s' :: 'e' :: 't' :: ' ' :: ((k0 :: ks) ++ ' ' :: rest)) =
      val (rest.dropWhile isSpaceCh) := by
  have hspace : isSpaceCh ' ' = true := rfl
  have h1 : ((' ' :: ((k0 :: ks) ++ ' ' :: rest)).takeWhile isSpaceCh).isEmpty = false := by
    simp [List.takeWhile_cons, hspace]
  have h2 : (' ' :: ((k0 :: ks) ++ ' ' :: rest)).dropWhile isSpaceCh =
      (k0 :: ks) ++ ' ' :: rest := by
    simp [List.dropWhile_cons, hspace, hk0]
  have h3 := dropLit_self (k0 :: ks) (' ' :: rest)
  have h4 : ((' ' :: rest).takeWhile isSpaceCh).isEmpty = false := by
    simp [List.takeWhile_cons, hspace]
  simp only [matchSetKey, h1, Bool.false_eq_true, if_false, h2, h3, h4]
  simp [List.dropWhile_cons, hspace]

lemma takeWhile_append_gen (p : Char → Bool) (a z : List Char)
    (ha : ∀ c ∈ a, p c = true) (hz : z.takeWhile p = []) :
    (a ++ z).takeWhile p = a := by
  induction a with
  | nil => simpa using hz
  | cons c t ih =>
    have hc := ha c (by simp)
    have iht := ih (fun x hx => ha x (by simp [hx]))
    simp [List.takeWhile_cons, hc, iht]

lemma dropWhile_all_append (p : Char → Bool) (a b : List Char)
    (ha : ∀ c ∈ a, p c = true) : (a ++ b).dropWhile p = b.dropWhile p := by
  induction a with
  | nil => rfl
  | cons c t ih =>
    have hc := ha c (by simp)
    have iht := ih (fun x hx => ha x (by simp [hx]))
    simp [List.dropWhile_cons, hc, iht]

/-- Compute `str.strip()` of a details body: leading whitespace `F` and
trailing whitespace `T` around a core `Y` that starts and ends with
non-whitespace characters. -/
lemma stripChars_spec (F Y T : List Char)
    (hF : ∀ c ∈ F, isSpaceCh c = true)
    (hT : ∀ c ∈ T, isSpaceCh c = true)
    (hYh : ∃ c Y2, Y = c :: Y2 ∧ isSpaceCh c = false)
    (hYl : ∃ c Y2, Y.reverse = c :: Y2 ∧ isSpaceCh c = false) :
    stripChars (F ++ Y ++ T) = Y := by
  unfold stripChars
  obtain ⟨c0, Y2, hY, hc0⟩ := hYh
  obtain ⟨c1, Y3, hYr, hc1⟩ := hYl
  have h1 : (F ++ Y ++ T).dropWhile isSpaceCh = Y ++ T := by
    rw [List.append_assoc, dropWhile_all_append _ F _ hF, hY]
    simp [List.dropWhile_cons, hc0]
  rw [h1, List.reverse_append,
    dropWhile_all_append _ T.reverse _ (fun c hc => hT c (by simpa using hc)), hYr]
  simp only [List.dropWhile_cons, hc1, Bool.false_eq_true, if_false]
  rw [← hYr, List.reverse_reverse]

lemma ipVal_eval (f z : List Char) (hf1 : f ≠ [])
    (hf2 : ∀ c ∈ f, isDigitDot c = true) (hz : z.takeWhile isDigitDot = []) :
    ipVal (f ++ z) = some f := by
  unfold ipVal
  rw [takeWhile_append_gen _ f z hf2 hz]
  simp [hf1]

lemma subnetVal_eval (a m z : List Char)
    (ha1 : a ≠ []) (ha2 : ∀ c ∈ a, isDigitDot c = true)
    (hm1 : m ≠ []) (hm2 : ∀ c ∈ m, Char.isDigit c = true)
    (hz : z.takeWhile Char.isDigit = []) :
    subnetVal (a ++ '/' :: (m ++ z)) = some (a ++ '/' :: m) := by
  unfold subnetVal
  rw [takeWhile_append_stop _ a '/' _ ha2 rfl, dropWhile_append_stop _ a '/' _ ha2 rfl]
  have htw : (m ++ z).takeWhile Char.isDigit = m := takeWhile_append_gen _ m z hm2 hz
  simp [htw, ha1, hm1]

lemma head_not_space_of_digitDot (a : List Char) (ha1 : a ≠ [])
    (ha2 : ∀ c ∈ a, isDigitDot c = true) (z : List Char) :
    (a ++ z).dropWhile isSpaceCh = a ++ z := by
  cases a with
  | nil => exact absurd rfl ha1
  | cons c t =>
    have := isSpaceCh_false_of_digitDot c (ha2 c (by simp))
    simp [List.dropWhile_cons, this]

lemma searchSubnet_eval (a m z : List Char)
    (ha1 : a ≠ []) (ha2 : ∀ c ∈ a, isDigitDot c = true)
    (hm1 : m ≠ []) (hm2 : ∀ c ∈ m, Char.isDigit c = true)
    (hz : z.takeWhile Char.isDigit = []) :
    searchAux matchSubnet
      ("set type ipmask\n        set subnet ".data ++ (a ++ '/' :: (m ++ z))) =
      some (a ++ '/' :: m) := by
  have hsplit : ("set type ipmask\n        set subnet ".data : List Char) ++
      (a ++ '/' :: (m ++ z)) =
      "set type ipmask\n        ".data ++ ("set subnet ".data ++ (a ++ '/' :: (m ++ z))) := by
    rw [← List.append_assoc]
    rfl
  rw [hsplit]
  unfold matchSubnet
  rw [searchAux_skip _ _ _ _ (by decide)]
  have hform : ("set subnet ".data : List Char) ++ (a ++ '/' :: (m ++ z)) =
      's' :: 'e' :: 't' :: ' ' ::
        (('s' :: "ubnet".data) ++ ' ' :: (a ++ '/' :: (m ++ z))) := rfl
  rw [hform]
  rw [searchAux_cons_some _ _ _ _ ?hsome]
  case hsome =>
    rw [matchSetKey_at 's' "ubnet".data _ subnetVal rfl]
    rw [head_not_space_of_digitDot a ha1 ha2]
    exact subnetVal_eval a m z ha1 ha2 hm1 hm2 hz

lemma sectionDescriptor_ipmask (a m z : List Char)
    (ha1 : a ≠ []) (ha2 : ∀ c ∈ a, isDigitDot c = true)
    (hm1 : m ≠ []) (hm2 : ∀ c ∈ m, Char.isDigit c = true)
    (hz : z.takeWhile Char.isDigit = []) :
    sectionDescriptor
      ("set type ipmask\n        set subnet ".data ++ (a ++ '/' :: (m ++ z))) =
      { type_ := "ipmask", subnet := some (String.mk (a ++ '/' :: m)),
        startIp := none, endIp := none } := by
  have ht : searchAux matchTypeWord
      ("set type ipmask\n        set subnet ".data ++ (a ++ '/' :: (m ++ z))) =
      some "ipmask".data := rfl
  have hs := searchSubnet_eval a m z ha1 ha2 hm1 hm2 hz
  unfold sectionDescriptor
  rw [ht, hs]
  simp

lemma searchStartIp_eval (f rest : List Char) (hf1 : f ≠ [])
    (hf2 : ∀ c ∈ f, isDigitDot c = true) (hrest : rest.takeWhile isDigitDot = []) :
    searchAux matchStartIp
      ("set type iprange\n        set start-ip ".data ++ (f ++ rest)) = some f := by
  have hsplit : ("set type iprange\n        set start-ip ".data : List Char) ++ (f ++ rest) =
      "set type iprange\n        ".data ++ ("set start-ip ".data ++ (f ++ rest)) := by
    rw [← List.append_assoc]
    rfl
  rw [hsplit]
  unfold matchStartIp
  rw [searchAux_skip _ _ _ _ (by decide)]
  have hform : ("set start-ip ".data : List Char) ++ (f ++ rest) =
      's' :: 'e' :: 't' :: ' ' ::
        (('s' :: "tart-ip".data) ++ ' ' :: (f ++ rest)) := rfl
  rw [hform]
  rw [searchAux_cons_some _ _ _ _ ?hsome]
  case hsome =>
    rw [matchSetKey_at 's' "tart-ip".data _ ipVal rfl]
    rw [head_not_space_of_digitDot f hf1 hf2]
    exact ipVal_eval f rest hf1 hf2 hrest

lemma searchEndIp_eval (f l z : List Char)
    (hf2 : ∀ c ∈ f, isDigitDot c = true)
    (hl1 : l ≠ []) (hl2 : ∀ c ∈ l, isDigitDot c = true)
    (hz : z.takeWhile isDigitDot = []) :
    searchAux matchEndIp
      ("set type iprange\n        set start-ip ".data ++
        (f ++ ("\n        set end-ip ".data ++ (l ++ z)))) = some l := by
  unfold matchEndIp
  rw [searchAux_skip _ _ _ _ (by decide)]
  rw [searchAux_skip_digitDot _ _ f _ hf2]
  have hsplit : ("\n        set end-ip ".data : List Char) ++ (l ++ z) =
      "\n        ".data ++ ("set end-ip ".data ++ (l ++ z)) := by
    rw [← List.append_assoc]
    rfl
  rw [hsplit]
  rw [searchAux_skip _ _ _ _ (by decide)]
  have hform : ("set end-ip ".data : List Char) ++ (l ++ z) =
      's' :: 'e' :: 't' :: ' ' ::
        (('e' :: "nd-ip".data) ++ ' ' :: (l ++ z)) := rfl
  rw [hform]
  rw [searchAux_cons_some _ _ _ _ ?hsome]
  case hsome =>
    rw [matchSetKey_at 'e' "nd-ip".data _ ipVal rfl]
    rw [head_not_space_of_digitDot l hl1 hl2]
    exact ipVal_eval l z hl1 hl2 hz

lemma sectionDescriptor_iprange (f l z : List Char)
    (hf1 : f ≠ []) (hf2 : ∀ c ∈ f, isDigitDot c = true)
    (hl1 : l ≠ []) (hl2 : ∀ c ∈ l, isDigitDot c = true)
    (hz : z.takeWhile isDigitDot = []) :
    sectionDescriptor
      ("set type iprange\n        set start-ip ".data ++
        (f ++ ("\n        set end-ip ".data ++ (l ++ z)))) =
      { type_ := "iprange", subnet := none,
        startIp := some (String.mk f), endIp := some (String.mk l) } := by
  have ht : searchAux matchTypeWord
      ("set type iprange\n        set start-ip ".data ++
        (f ++ ("\n        set end-ip ".data ++ (l ++ z)))) = some "iprange".data := rfl
  have hfs : searchAux matchStartIp
      ("set type iprange\n        set start-ip ".data ++
        (f ++ ("\n        set end-ip ".data ++ (l ++ z)))) = some f := by
    have := searchStartIp_eval f ("\n        set end-ip ".data ++ (l ++ z)) hf1 hf2 rfl
    simpa using this
  have hes := searchEndIp_eval f l z hf2 hl1 hl2 hz
  unfold sectionDescriptor
  rw [ht, hfs, hes]
  simp
  decide


/-- The character alphabet of the round-trip well-formedness condition:
letters other than `x`, digits, space, underscore, dash, dot.  It excludes
the double quote, every whitespace control character, and the letter `x`
(so the literal `next` can never occur in a rendered section body). -/
def safeTextCh (c : Char) : Bool :=
  (c.isAlpha && c != 'x') || c.isDigit || c == ' ' || c == '_' || c == '-' || c == '.'

/-- All characters of the string are safe. -/
def safeStr (s : String) : Bool := s.data.all safeTextCh

/-- A non-empty digits-and-dots string (what the loader's address regexes
can re-extract). -/
def digitDotStr (s : String) : Bool := s != "" && s.data.all isDigitDot

/-- The round-trip well-formedness condition on one object: its name and
comment are drawn from the safe alphabet, its address fields are
digits-and-dots, its mask renders as digits and its port renders as digits
and dashes. -/
def safeObj (o : SrcObj) : Bool :=
  (match o.name with | some s => safeStr s | none => true) &&
  (match o.ipv4Address with | some s => s == "" || digitDotStr s | none => true) &&
  (match o.subnet4 with | some s => s == "" || digitDotStr s | none => true) &&
  (match o.maskLength4 with
   | some mv => !(toString mv).data.isEmpty && (toString mv).data.all Char.isDigit
   | none => true) &&
  (match o.ipv4AddressFirst with | some s => s == "" || digitDotStr s | none => true) &&
  (match o.ipv4AddressLast with | some s => s == "" || digitDotStr s | none => true) &&
  (match o.port with
   | some v => v.render.data.all (fun c => c.isDigit || c == '-')
   | none => true) &&
  o.comments.data.all safeTextCh

lemma safeTextCh_ne_x (c : Char) (h : safeTextCh c = true) : c ≠ 'x' := by
  intro he
  subst he
  simp [safeTextCh] at h

lemma safeTextCh_ne_quote (c : Char) (h : safeTextCh c = true) : c ≠ '"' := by
  intro he
  subst he
  simp [safeTextCh, Char.isAlpha, Char.isUpper, Char.isLower, Char.isDigit] at h

lemma digitDot_ne_x (c : Char) (h : isDigitDot c = true) : c ≠ 'x' := by
  intro he
  subst he
  simp [isDigitDot, Char.isDigit] at h

lemma digitDash_ne_x (c : Char) (h : (c.isDigit || c == '-') = true) : c ≠ 'x' := by
  intro he
  subst he
  simp [Char.isDigit] at h

lemma digit_ne_x (c : Char) (h : Char.isDigit c = true) : c ≠ 'x' := by
  intro he
  subst he
  simp [Char.isDigit] at h

lemma str_data_ne_nil (s : String) (h : s ≠ "") : s.data ≠ [] := by
  intro hd
  apply h
  cases s with
  | mk l => simp_all

/-- The block an object renders in a run against the empty index (no object
is a duplicate there). -/
def renderBlock (u : UidIndex) (o : SrcObj) : String :=
  ((convertAny o u []).1).getD ""

/-- The name a complete object carries. -/
def nameOf (o : SrcObj) : String := getS o.name

/-- The details region (between the closing name quote and the final `next`)
of a host block. -/
def hostDetailsL (a cp : List Char) : List Char :=
  "\n        set type ipmask\n        set subnet ".data ++
    (a ++ ("/32\n".data ++ (cp ++ "    ".data)))

/-- The details region of a network block. -/
def networkDetailsL (sN m cp : List Char) : List Char :=
  "\n        set type ipmask\n        set subnet ".data ++
    (sN ++ ('/' :: (m ++ ("\n".data ++ (cp ++ "    ".data)))))

/-- The details region of a range block. -/
def rangeDetailsL (f l cp : List Char) : List Char :=
  "\n        set type iprange\n        set start-ip ".data ++
    (f ++ ("\n        set end-ip ".data ++ (l ++ ("\n".data ++ (cp ++ "    ".data)))))

/-- The details region of a TCP service block. -/
def tcpDetailsL (p cp : List Char) : List Char :=
  "\n        set tcp-portrange ".data ++
    (p ++ ("\n        set protocol TCP/UDP/SCTP\n".data ++ (cp ++ "    ".data)))

/-- The details region of a UDP service block. -/
def udpDetailsL (p cp : List Char) : List Char :=
  "\n        set udp-portrange ".data ++
    (p ++ ("\n        set protocol TCP/UDP/SCTP\n".data ++ (cp ++ "    ".data)))

/-- The details region of a group block. -/
def groupDetailsL (mp cp : List Char) : List Char :=
  "\n".data ++ (mp ++ (cp ++ "    ".data))

/-- The details region the scan recovers for a complete object's block. -/
def detailsOf (u : UidIndex) (o : SrcObj) : List Char :=
  match o.type_ with
  | some "host" =>
    hostDetailsL (getS o.ipv4Address).data (commentPart o.comments).data
  | some "network" =>
    networkDetailsL (getS o.subnet4).data (toString (o.maskLength4.getD 0)).data
      (commentPart o.comments).data
  | some "address-range" =>
    rangeDetailsL (getS o.ipv4AddressFirst).data (getS o.ipv4AddressLast).data
      (commentPart o.comments).data
  | some "service-tcp" =>
    tcpDetailsL (portRender o.port).data (commentPart o.comments).data
  | some "service-udp" =>
    udpDetailsL (portRender o.port).data (commentPart o.comments).data
  | some "group" =>
    groupDetailsL (memberPart (resolveMemberNames u o.members)).data
      (commentPart o.comments).data
  | _ => []

lemma renderBlock_host (u : UidIndex) (o : SrcObj) (ht : o.type_ = some "host")
    (hc : completeB o = true) :
    renderBlock u o =
      "config firewall address\n    edit \"" ++ getS o.name ++
        "\"\n        set type ipmask\n        set subnet " ++ getS o.ipv4Address ++
        "/32\n" ++ commentPart o.comments ++ "    next\nend" := by
  simp only [completeB, ht, Bool.and_eq_true] at hc
  obtain ⟨hn, hi⟩ := hc
  rw [renderBlock, convertAny_of_not_group o u [] (by simp [isGroupType, ht])]
  simp [convertSimple, ht, convert_host_object, hn, hi, lookupEx]

lemma renderBlock_network (u : UidIndex) (o : SrcObj) (ht : o.type_ = some "network")
    (hc : completeB o = true) :
    renderBlock u o =
      "config firewall address\n    edit \"" ++ getS o.name ++
        "\"\n        set type ipmask\n        set subnet " ++ getS o.subnet4 ++ "/" ++
        toString (o.maskLength4.getD 0) ++ "\n" ++
        commentPart o.comments ++ "    next\nend" := by
  simp only [completeB, ht, Bool.and_eq_true] at hc
  obtain ⟨⟨hn, hs⟩, hm⟩ := hc
  have hm2 : (o.maskLength4 == none) = false := by
    cases hmm : o.maskLength4 with
    | none => rw [hmm] at hm; simp at hm
    | some v => simp
  rw [renderBlock, convertAny_of_not_group o u [] (by simp [isGroupType, ht])]
  simp [convertSimple, ht, convert_network_object, hn, hs, hm2, lookupEx]

lemma renderBlock_range (u : UidIndex) (o : SrcObj) (ht : o.type_ = some "address-range")
    (hc : completeB o = true) :
    renderBlock u o =
      "config firewall address\n    edit \"" ++ getS o.name ++
        "\"\n        set type iprange\n        set start-ip " ++ getS o.ipv4AddressFirst ++
        "\n        set end-ip " ++ getS o.ipv4AddressLast ++ "\n" ++
        commentPart o.comments ++ "    next\nend" := by
  simp only [completeB, ht, Bool.and_eq_true] at hc
  obtain ⟨⟨hn, hf⟩, hl⟩ := hc
  rw [renderBlock, convertAny_of_not_group o u [] (by simp [isGroupType, ht])]
  simp [convertSimple, ht, convert_range_object, hn, hf, hl, lookupEx]

lemma renderBlock_tcp (u : UidIndex) (o : SrcObj) (ht : o.type_ = some "service-tcp")
    (hc : completeB o = true) :
    renderBlock u o =
      "config firewall service custom\n    edit \"" ++ getS o.name ++
        "\"\n        set tcp-portrange " ++ portRender o.port ++
        "\n        set protocol TCP/UDP/SCTP\n" ++
        commentPart o.comments ++ "    next\nend" := by
  simp only [completeB, ht, Bool.and_eq_true] at hc
  obtain ⟨hn, hp⟩ := hc
  rw [renderBlock, convertAny_of_not_group o u [] (by simp [isGroupType, ht])]
  simp [convertSimple, ht, convert_service_tcp_object, hn, hp, lookupEx]

lemma renderBlock_udp (u : UidIndex) (o : SrcObj) (ht : o.type_ = some "service-udp")
    (hc : completeB o = true) :
    renderBlock u o =
      "config firewall service custom\n    edit \"" ++ getS o.name ++
        "\"\n        set udp-portrange " ++ portRender o.port ++
        "\n        set protocol TCP/UDP/SCTP\n" ++
        commentPart o.comments ++ "    next\nend" := by
  simp only [completeB, ht, Bool.and_eq_true] at hc
  obtain ⟨hn, hp⟩ := hc
  rw [renderBlock, convertAny_of_not_group o u [] (by simp [isGroupType, ht])]
  simp [convertSimple, ht, convert_service_udp_object, hn, hp, lookupEx]

lemma renderBlock_group (u : UidIndex) (o : SrcObj) (ht : o.type_ = some "group")
    (hc : completeB o = true) :
    renderBlock u o =
      "config firewall addrgrp\n    edit \"" ++ getS o.name ++ "\"\n" ++
        memberPart (resolveMemberNames u o.members) ++
        commentPart o.comments ++ "    next\nend" := by
  simp only [completeB, ht, Bool.and_eq_true] at hc
  obtain ⟨hn, hm⟩ := hc
  have hm2 : (o.members == []) = false := by
    cases hmm : o.members with
    | nil => rw [hmm] at hm; simp at hm
    | cons a t => simp
  rw [renderBlock, convertAny_group o u [] ht]
  simp [convert_group_object, hn, hm2, lookupEx]

lemma scan_chunk_str (pre n d Z : List Char)
    (hpre : skipOk pre = true) (hn : n ≠ []) (hnq : ∀ c ∈ n, c ≠ '"')
    (hdx : ∀ c ∈ d, c ≠ 'x') :
    scanSections (pre ++ ("edit \"".data ++
        (n ++ ("\"".data ++ (d ++ ("next".data ++ ("\nend\n\n".data ++ Z))))))) =
      (n, d) :: scanSections Z := by
  have h1 : ("edit \"".data : List Char) ++
      (n ++ ("\"".data ++ (d ++ ("next".data ++ ("\nend\n\n".data ++ Z))))) =
      'e' :: 'd' :: 'i' :: 't' :: ' ' :: '"' ::
        (n ++ '"' :: (d ++ 'n' :: 'e' :: 'x' :: 't' ::
          ('\n' :: 'e' :: 'n' :: 'd' :: '\n' :: '\n' :: Z))) := rfl
  rw [h1, scan_chunk pre n d _ hpre hn hnq hdx]
  have h2 : scanSections ('\n' :: 'e' :: 'n' :: 'd' :: '\n' :: '\n' :: Z) =
      scanSections Z :=
    scan_skip ['\n', 'e', 'n', 'd', '\n', '\n'] Z (by decide)
  rw [h2]

lemma safeObj_parts (o : SrcObj) (h : safeObj o = true) :
    (match o.name with | some s => safeStr s | none => true) = true ∧
    (match o.ipv4Address with | some s => (s == "" || digitDotStr s) | none => true) = true ∧
    (match o.subnet4 with | some s => (s == "" || digitDotStr s) | none => true) = true ∧
    (match o.maskLength4 with
     | some mv => (!(toString mv).data.isEmpty && (toString mv).data.all Char.isDigit)
     | none => true) = true ∧
    (match o.ipv4AddressFirst with | some s => (s == "" || digitDotStr s) | none => true) = true ∧
    (match o.ipv4AddressLast with | some s => (s == "" || digitDotStr s) | none => true) = true ∧
    (match o.port with
     | some v => v.render.data.all (fun c => c.isDigit || c == '-')
     | none => true) = true ∧
    o.comments.data.all safeTextCh = true := by
  simp only [safeObj, Bool.and_eq_true] at h
  tauto

lemma getS_ne_of_truthy (x : Option String) (h : truthyS x = true) : getS x ≠ "" := by
  cases x with
  | none => simp [truthyS] at h
  | some s => simpa [truthyS, getS] using h

lemma name_facts (o : SrcObj) (hsafe : safeObj o = true) (hname : truthyS o.name = true) :
    (nameOf o).data ≠ [] ∧ ∀ c ∈ (nameOf o).data, c ≠ '"' := by
  have hp := (safeObj_parts o hsafe).1
  cases hno : o.name with
  | none => rw [hno] at hname; simp [truthyS] at hname
  | some s =>
    rw [hno] at hp hname
    simp only [truthyS] at hname
    constructor
    · show (getS o.name).data ≠ []
      rw [hno]
      exact str_data_ne_nil s (by simpa using hname)
    · intro c hc
      apply safeTextCh_ne_quote
      have hcs : c ∈ s.data := by
        simpa [nameOf, getS, hno] using hc
      exact List.all_eq_true.mp (by simpa [safeStr] using hp) c hcs

lemma commentPart_no_x (c : String) (hc : c.data.all safeTextCh = true) :
    ∀ ch ∈ (commentPart c).data, ch ≠ 'x' := by
  intro ch hch
  unfold commentPart at hch
  by_cases hcc : (c != "") = true
  · rw [if_pos hcc] at hch
    simp only [String.data_append, List.mem_append] at hch
    rcases hch with (h1 | h2) | h3
    · intro he; subst he; exact absurd h1 (by decide)
    · exact safeTextCh_ne_x ch (List.all_eq_true.mp hc ch h2)
    · intro he; subst he; exact absurd h3 (by decide)
  · rw [if_neg hcc] at hch
    simp at hch

lemma joinSpace_chars (parts : List String) :
    ∀ ch ∈ (joinSpace parts).data, ch = ' ' ∨ ∃ p ∈ parts, ch ∈ p.data := by
  induction parts with
  | nil => intro ch hch; simp [joinSpace] at hch
  | cons p rest ih =>
    cases rest with
    | nil =>
      intro ch hch
      right
      exact ⟨p, by simp, by simpa [joinSpace] using hch⟩
    | cons q rest2 =>
      intro ch hch
      simp only [joinSpace, String.data_append, List.mem_append] at hch
      rcases hch with (h1 | h2) | h3
      · right; exact ⟨p, by simp, h1⟩
      · left; simpa using h2
      · rcases ih ch h3 with h | ⟨p2, hp2, hc2⟩
        · left; exact h
        · right; exact ⟨p2, by simp [hp2], hc2⟩

lemma memberPart_no_x (mns : List String) (hm : ∀ nm ∈ mns, safeStr nm = true) :
    ∀ ch ∈ (memberPart mns).data, ch ≠ 'x' := by
  intro ch hch
  unfold memberPart at hch
  by_cases hne : (mns != []) = true
  · rw [if_pos hne] at hch
    simp only [String.data_append, List.mem_append] at hch
    rcases hch with (h1 | h2) | h3
    · intro he; subst he; exact absurd h1 (by decide)
    · rcases joinSpace_chars (mns.map fun m => "\"" ++ m ++ "\"") ch h2 with h | ⟨p, hp, hcp⟩
      · intro he; subst he; cases h
      · simp only [List.mem_map] at hp
        obtain ⟨m, hmm, rfl⟩ := hp
        simp only [String.data_append, List.mem_append] at hcp
        rcases hcp with (hq1 | hq2) | hq3
        · intro he; subst he; exact absurd hq1 (by decide)
        · exact safeTextCh_ne_x ch (List.all_eq_true.mp (by simpa [safeStr] using hm m hmm) ch hq2)
        · intro he; subst he; exact absurd hq3 (by decide)
    · intro he; subst he; exact absurd h3 (by decide)
  · rw [if_neg hne] at hch
    simp at hch

lemma scan_block_of (u : UidIndex) (o : SrcObj) (Z : List Char) (pre : List Char) (bs : String)
    (hrb : renderBlock u o = bs)
    (hdata : bs.data ++ '\n' :: '\n' :: Z =
      pre ++ ("edit \"".data ++ ((nameOf o).data ++ ("\"".data ++
        (detailsOf u o ++ ("next".data ++ ("\nend\n\n".data ++ Z)))))))
    (hpre : skipOk pre = true) (hn : (nameOf o).data ≠ [])
    (hnq : ∀ c ∈ (nameOf o).data, c ≠ '"')
    (hdx : ∀ c ∈ detailsOf u o, c ≠ 'x') :
    scanSections ((renderBlock u o).data ++ '\n' :: '\n' :: Z) =
      ((nameOf o).data, detailsOf u o) :: scanSections Z := by
  rw [hrb, hdata]
  exact scan_chunk_str pre _ _ Z hpre hn hnq hdx

lemma hostDetails_no_x (a cp : List Char)
    (ha : ∀ c ∈ a, isDigitDot c = true) (hcp : ∀ c ∈ cp, c ≠ 'x') :
    ∀ c ∈ hostDetailsL a cp, c ≠ 'x' := by
  intro c hc
  unfold hostDetailsL at hc
  simp only [List.mem_append] at hc
  rcases hc with h | h | h | h | h
  · intro he; subst he; exact absurd h (by decide)
  · exact digitDot_ne_x c (ha c h)
  · intro he; subst he; exact absurd h (by decide)
  · exact hcp c h
  · intro he; subst he; exact absurd h (by decide)

lemma hostBlock_decomp (n a cp : String) (Z : List Char) :
    ("config firewall address\n    edit \"" ++ n ++
      "\"\n        set type ipmask\n        set subnet " ++ a ++ "/32\n" ++ cp ++
      "    next\nend").data ++ '\n' :: '\n' :: Z =
    "config firewall address\n    ".data ++ ("edit \"".data ++ (n.data ++ ("\"".data ++
      (hostDetailsL a.data cp.data ++ ("next".data ++ ("\nend\n\n".data ++ Z)))))) := by
  simp only [String.data_append, hostDetailsL]
  simp only [List.append_assoc, List.cons_append, List.nil_append]

lemma networkDetails_no_x (sN m cp : List Char)
    (hs : ∀ c ∈ sN, isDigitDot c = true) (hm : ∀ c ∈ m, Char.isDigit c = true)
    (hcp : ∀ c ∈ cp, c ≠ 'x') :
    ∀ c ∈ networkDetailsL sN m cp, c ≠ 'x' := by
  intro c hc
  unfold networkDetailsL at hc
  simp only [List.mem_append, List.mem_cons] at hc
  rcases hc with h | h | h | h | h | h | h
  · intro he; subst he; exact absurd h (by decide)
  · exact digitDot_ne_x c (hs c h)
  · intro he; subst he; exact absurd h (by decide)
  · exact digit_ne_x c (hm c h)
  · intro he; subst he; exact absurd h (by decide)
  · exact hcp c h
  · intro he; subst he; exact absurd h (by decide)

lemma rangeDetails_no_x (f l cp : List Char)
    (hf : ∀ c ∈ f, isDigitDot c = true) (hl : ∀ c ∈ l, isDigitDot c = true)
    (hcp : ∀ c ∈ cp, c ≠ 'x') :
    ∀ c ∈ rangeDetailsL f l cp, c ≠ 'x' := by
  intro c hc
  unfold rangeDetailsL at hc
  simp only [List.mem_append] at hc
  rcases hc with h | h | h | h | h | h | h
  · intro he; subst he; exact absurd h (by decide)
  · exact digitDot_ne_x c (hf c h)
  · intro he; subst he; exact absurd h (by decide)
  · exact digitDot_ne_x c (hl c h)
  · intro he; subst he; exact absurd h (by decide)
  · exact hcp c h
  · intro he; subst he; exact absurd h (by decide)

lemma tcpDetails_no_x (p cp : List Char)
    (hp : ∀ c ∈ p, (c.isDigit || c == '-') = true) (hcp : ∀ c ∈ cp, c ≠ 'x') :
    ∀ c ∈ tcpDetailsL p cp, c ≠ 'x' := by
  intro c hc
  unfold tcpDetailsL at hc
  simp only [List.mem_append] at hc
  rcases hc with h | h | h | h | h
  · intro he; subst he; exact absurd h (by decide)
  · exact digitDash_ne_x c (hp c h)
  · intro he; subst he; exact absurd h (by decide)
  · exact hcp c h
  · intro he; subst he; exact absurd h (by decide)

lemma udpDetails_no_x (p cp : List Char)
    (hp : ∀ c ∈ p, (c.isDigit || c == '-') = true) (hcp : ∀ c ∈ cp, c ≠ 'x') :
    ∀ c ∈ udpDetailsL p cp, c ≠ 'x' := by
  intro c hc
  unfold udpDetailsL at hc
  simp only [List.mem_append] at hc
  rcases hc with h | h | h | h | h
  · intro he; subst he; exact absurd h (by decide)
  · exact digitDash_ne_x c (hp c h)
  · intro he; subst he; exact absurd h (by decide)
  · exact hcp c h
  · intro he; subst he; exact absurd h (by decide)

lemma groupDetails_no_x (mp cp : List Char)
    (hmp : ∀ c ∈ mp, c ≠ 'x') (hcp : ∀ c ∈ cp, c ≠ 'x') :
    ∀ c ∈ groupDetailsL mp cp, c ≠ 'x' := by
  intro c hc
  unfold groupDetailsL at hc
  simp only [List.mem_append] at hc
  rcases hc with h | h | h | h
  · intro he; subst he; exact absurd h (by decide)
  · exact hmp c h
  · exact hcp c h
  · intro he; subst he; exact absurd h (by decide)

lemma networkBlock_decomp (n sN m cp : String) (Z : List Char) :
    ("config firewall address\n    edit \"" ++ n ++
      "\"\n        set type ipmask\n        set subnet " ++ sN ++ "/" ++ m ++ "\n" ++ cp ++
      "    next\nend").data ++ '\n' :: '\n' :: Z =
    "config firewall address\n    ".data ++ ("edit \"".data ++ (n.data ++ ("\"".data ++
      (networkDetailsL sN.data m.data cp.data ++
        ("next".data ++ ("\nend\n\n".data ++ Z)))))) := by
  simp only [String.data_append, networkDetailsL]
  simp only [List.append_assoc, List.cons_append, List.nil_append]

lemma rangeBlock_decomp (n f l cp : String) (Z : List Char) :
    ("config firewall address\n    edit \"" ++ n ++
      "\"\n        set type iprange\n        set start-ip " ++ f ++
      "\n        set end-ip " ++ l ++ "\n" ++ cp ++
      "    next\nend").data ++ '\n' :: '\n' :: Z =
    "config firewall address\n    ".data ++ ("edit \"".data ++ (n.data ++ ("\"".data ++
      (rangeDetailsL f.data l.data cp.data ++
        ("next".data ++ ("\nend\n\n".data ++ Z)))))) := by
  simp only [String.data_append, rangeDetailsL]
  simp only [List.append_assoc, List.cons_append, List.nil_append]

lemma tcpBlock_decomp (n p cp : String) (Z : List Char) :
    ("config firewall service custom\n    edit \"" ++ n ++
      "\"\n        set tcp-portrange " ++ p ++
      "\n        set protocol TCP/UDP/SCTP\n" ++ cp ++
      "    next\nend").data ++ '\n' :: '\n' :: Z =
    "config firewall service custom\n    ".data ++ ("edit \"".data ++ (n.data ++ ("\"".data ++
      (tcpDetailsL p.data cp.data ++ ("next".data ++ ("\nend\n\n".data ++ Z)))))) := by
  simp only [String.data_append, tcpDetailsL]
  simp only [List.append_assoc, List.cons_append, List.nil_append]

lemma udpBlock_decomp (n p cp : String) (Z : List Char) :
    ("config firewall service custom\n    edit \"" ++ n ++
      "\"\n        set udp-portrange " ++ p ++
      "\n        set protocol TCP/UDP/SCTP\n" ++ cp ++
      "    next\nend").data ++ '\n' :: '\n' :: Z =
    "config firewall service custom\n    ".data ++ ("edit \"".data ++ (n.data ++ ("\"".data ++
      (udpDetailsL p.data cp.data ++ ("next".data ++ ("\nend\n\n".data ++ Z)))))) := by
  simp only [String.data_append, udpDetailsL]
  simp only [List.append_assoc, List.cons_append, List.nil_append]

lemma groupBlock_decomp (n mp cp : String) (Z : List Char) :
    ("config firewall addrgrp\n    edit \"" ++ n ++ "\"\n" ++ mp ++ cp ++
      "    next\nend").data ++ '\n' :: '\n' :: Z =
    "config firewall addrgrp\n    ".data ++ ("edit \"".data ++ (n.data ++ ("\"".data ++
      (groupDetailsL mp.data cp.data ++ ("next".data ++ ("\nend\n\n".data ++ Z)))))) := by
  simp only [String.data_append, groupDetailsL]
  simp only [List.append_assoc, List.cons_append, List.nil_append]

lemma digitDot_facts (x : Option String)
    (hs : (match x with | some s => (s == "" || digitDotStr s) | none => true) = true)
    (ht : truthyS x = true) :
    (getS x).data ≠ [] ∧ ∀ c ∈ (getS x).data, isDigitDot c = true := by
  cases x with
  | none => simp [truthyS] at ht
  | some s =>
    simp only [truthyS] at ht
    have hs2 : (s == "" || digitDotStr s) = true := hs
    have hne : s ≠ "" := by simpa using ht
    have hee : (s == "") = false := by simpa using hne
    rw [hee] at hs2
    simp only [Bool.false_or, digitDotStr, Bool.and_eq_true] at hs2
    have hs := hs2
    constructor
    · show (getS (some s)).data ≠ []
      simp only [getS]
      exact str_data_ne_nil s hne
    · intro c hc
      simp only [getS] at hc
      exact List.all_eq_true.mp hs.2 c hc

lemma port_facts (x : Option JVal)
    (hp : (match x with
      | some v => v.render.data.all (fun c => c.isDigit || c == '-')
      | none => true) = true) :
    ∀ c ∈ (portRender x).data, (c.isDigit || c == '-') = true := by
  cases hx : x with
  | none => intro c hc; simp [portRender] at hc
  | some v =>
    rw [hx] at hp
    intro c hc
    simp only [portRender] at hc
    exact List.all_eq_true.mp hp c hc

lemma mask_facts (x : Option Int)
    (hm : (match x with
      | some mv => (!(toString mv).data.isEmpty && (toString mv).data.all Char.isDigit)
      | none => true) = true)
    (hsome : x.isSome = true) :
    (toString (x.getD 0)).data ≠ [] ∧
      ∀ c ∈ (toString (x.getD 0)).data, Char.isDigit c = true := by
  cases x with
  | none => simp at hsome
  | some mv =>
    have hm2 : (!(toString mv).data.isEmpty && (toString mv).data.all Char.isDigit) = true := hm
    simp only [Bool.and_eq_true] at hm2
    have hm := hm2
    have h1 := hm.1
    constructor
    · show (toString ((some mv).getD 0)).data ≠ []
      simp only [Option.getD_some]
      intro hd
      rw [hd] at h1
      simp at h1
    · intro c hc
      simp only [Option.getD_some] at hc
      exact List.all_eq_true.mp hm.2 c hc

lemma buildUidIndex_from (objs : List SrcObj) :
    ∀ (acc : UidIndex) (k : String) (v : SrcObj),
      (k, v) ∈ objs.foldl (fun m o =>
        match o.uid with
        | some uu => (uu, o) :: m
        | none => m) acc → (k, v) ∈ acc ∨ v ∈ objs := by
  induction objs with
  | nil => intro acc k v h; exact Or.inl h
  | cons o t ih =>
    intro acc k v h
    rw [List.foldl_cons] at h
    rcases ih _ k v h with hacc | hmem
    · cases hu : o.uid with
      | none => rw [hu] at hacc; exact Or.inl hacc
      | some uu =>
        rw [hu] at hacc
        rcases List.mem_cons.mp hacc with he | hacc2
        · right
          have : v = o := by
            have := congrArg Prod.snd he
            simpa using this
          simp [this]
        · exact Or.inl hacc2
    · right
      exact List.mem_cons_of_mem _ hmem

lemma buildUidIndex_mem (objs : List SrcObj) (k : String) (v : SrcObj)
    (h : (k, v) ∈ buildUidIndex objs) : v ∈ objs := by
  rcases buildUidIndex_from objs [] k v h with h0 | h0
  · cases h0
  · exact h0

lemma lookupUid_mem (u : UidIndex) (k : String) (v : SrcObj)
    (h : lookupUid u k = some v) : ∃ k0, (k0, v) ∈ u := by
  induction u with
  | nil => simp [lookupUid] at h
  | cons p t ih =>
    rcases p with ⟨k1, v1⟩
    by_cases hk : (k1 == k) = true
    · rw [lookupUid, hk] at h
      simp only [if_true] at h
      injection h with h1
      exact ⟨k1, by simp [h1]⟩
    · have hkf : (k1 == k) = false := by simpa using hk
      rw [lookupUid, hkf] at h
      simp only [Bool.false_eq_true, if_false] at h
      obtain ⟨k0, hk0⟩ := ih h
      exact ⟨k0, List.mem_cons_of_mem _ hk0⟩

lemma resolveMemberNames_safe (u : UidIndex) (ms : List String)
    (hu : ∀ p ∈ u,
      (match (p : String × SrcObj).2.name with | some s => safeStr s | none => true) = true) :
    ∀ nm ∈ resolveMemberNames u ms, safeStr nm = true := by
  intro nm hnm
  unfold resolveMemberNames at hnm
  simp only [List.mem_filterMap] at hnm
  obtain ⟨uid, _, hf⟩ := hnm
  cases hlu : lookupUid u uid with
  | none => rw [hlu] at hf; cases hf
  | some o2 =>
    rw [hlu] at hf
    have hf0 : (match o2.name with
        | some nm0 => if nm0 != "" then some nm0 else none
        | none => none) = some nm := hf
    cases hno : o2.name with
    | none => rw [hno] at hf0; cases hf0
    | some sv =>
      rw [hno] at hf0
      have hf1 : (if (sv != "") = true then some sv else none) = some nm := hf0
      by_cases hse : (sv != "") = true
      · rw [if_pos hse] at hf1
        injection hf1 with hf2
        obtain ⟨k0, hk0⟩ := lookupUid_mem u uid o2 hlu
        have h2 : (match o2.name with | some s => safeStr s | none => true) = true :=
          hu (k0, o2) hk0
        rw [hno] at h2
        rw [← hf2]
        exact h2
      · rw [if_neg hse] at hf1; cases hf1

lemma scan_block_host (u : UidIndex) (o : SrcObj) (Z : List Char)
    (ht : o.type_ = some "host") (hsafe : safeObj o = true) (hcomp : completeB o = true) :
    scanSections ((renderBlock u o).data ++ '\n' :: '\n' :: Z) =
      ((nameOf o).data, detailsOf u o) :: scanSections Z := by
  have hc2 := hcomp
  simp only [completeB, ht, Bool.and_eq_true] at hc2
  obtain ⟨hn, hi⟩ := hc2
  obtain ⟨hnd, hnq⟩ := name_facts o hsafe hn
  obtain ⟨had, haf⟩ := digitDot_facts o.ipv4Address (safeObj_parts o hsafe).2.1 hi
  have hcm := commentPart_no_x o.comments (safeObj_parts o hsafe).2.2.2.2.2.2.2
  have hdet : detailsOf u o =
      hostDetailsL (getS o.ipv4Address).data (commentPart o.comments).data := by
    simp [detailsOf, ht]
  apply scan_block_of u o Z "config firewall address\n    ".data _
    (renderBlock_host u o ht hcomp)
  · rw [hdet, nameOf]
    exact hostBlock_decomp (getS o.name) (getS o.ipv4Address) (commentPart o.comments) Z
  · decide
  · exact hnd
  · exact hnq
  · rw [hdet]
    exact hostDetails_no_x _ _ haf hcm

lemma scan_block_network (u : UidIndex) (o : SrcObj) (Z : List Char)
    (ht : o.type_ = some "network") (hsafe : safeObj o = true) (hcomp : completeB o = true) :
    scanSections ((renderBlock u o).data ++ '\n' :: '\n' :: Z) =
      ((nameOf o).data, detailsOf u o) :: scanSections Z := by
  have hc2 := hcomp
  simp only [completeB, ht, Bool.and_eq_true] at hc2
  obtain ⟨⟨hn, hs⟩, hm⟩ := hc2
  obtain ⟨hnd, hnq⟩ := name_facts o hsafe hn
  obtain ⟨hsd, hsf⟩ := digitDot_facts o.subnet4 (safeObj_parts o hsafe).2.2.1 hs
  obtain ⟨hmd, hmf⟩ := mask_facts o.maskLength4 (safeObj_parts o hsafe).2.2.2.1 hm
  have hcm := commentPart_no_x o.comments (safeObj_parts o hsafe).2.2.2.2.2.2.2
  have hdet : detailsOf u o =
      networkDetailsL (getS o.subnet4).data (toString (o.maskLength4.getD 0)).data
        (commentPart o.comments).data := by
    simp [detailsOf, ht]
  apply scan_block_of u o Z "config firewall address\n    ".data _
    (renderBlock_network u o ht hcomp)
  · rw [hdet, nameOf]
    exact networkBlock_decomp (getS o.name) (getS o.subnet4)
      (toString (o.maskLength4.getD 0)) (commentPart o.comments) Z
  · decide
  · exact hnd
  · exact hnq
  · rw [hdet]
    exact networkDetails_no_x _ _ _ hsf hmf hcm

lemma scan_block_range (u : UidIndex) (o : SrcObj) (Z : List Char)
    (ht : o.type_ = some "address-range") (hsafe : safeObj o = true)
    (hcomp : completeB o = true) :
    scanSections ((renderBlock u o).data ++ '\n' :: '\n' :: Z) =
      ((nameOf o).data, detailsOf u o) :: scanSections Z := by
  have hc2 := hcomp
  simp only [completeB, ht, Bool.and_eq_true] at hc2
  obtain ⟨⟨hn, hf⟩, hl⟩ := hc2
  obtain ⟨hnd, hnq⟩ := name_facts o hsafe hn
  obtain ⟨hfd, hff⟩ := digitDot_facts o.ipv4AddressFirst (safeObj_parts o hsafe).2.2.2.2.1 hf
  obtain ⟨hld, hlf⟩ := digitDot_facts o.ipv4AddressLast (safeObj_parts o hsafe).2.2.2.2.2.1 hl
  have hcm := commentPart_no_x o.comments (safeObj_parts o hsafe).2.2.2.2.2.2.2
  have hdet : detailsOf u o =
      rangeDetailsL (getS o.ipv4AddressFirst).data (getS o.ipv4AddressLast).data
        (commentPart o.comments).data := by
    simp [detailsOf, ht]
  apply scan_block_of u o Z "config firewall address\n    ".data _
    (renderBlock_range u o ht hcomp)
  · rw [hdet, nameOf]
    exact rangeBlock_decomp (getS o.name) (getS o.ipv4AddressFirst)
      (getS o.ipv4AddressLast) (commentPart o.comments) Z
  · decide
  · exact hnd
  · exact hnq
  · rw [hdet]
    exact rangeDetails_no_x _ _ _ hff hlf hcm

lemma scan_block_tcp (u : UidIndex) (o : SrcObj) (Z : List Char)
    (ht : o.type_ = some "service-tcp") (hsafe : safeObj o = true)
    (hcomp : completeB o = true) :
    scanSections ((renderBlock u o).data ++ '\n' :: '\n' :: Z) =
      ((nameOf o).data, detailsOf u o) :: scanSections Z := by
  have hc2 := hcomp
  simp only [completeB, ht, Bool.and_eq_true] at hc2
  obtain ⟨hn, hp⟩ := hc2
  obtain ⟨hnd, hnq⟩ := name_facts o hsafe hn
  have hpf := port_facts o.port (safeObj_parts o hsafe).2.2.2.2.2.2.1
  have hcm := commentPart_no_x o.comments (safeObj_parts o hsafe).2.2.2.2.2.2.2
  have hdet : detailsOf u o =
      tcpDetailsL (portRender o.port).data (commentPart o.comments).data := by
    simp [detailsOf, ht]
  apply scan_block_of u o Z "config firewall service custom\n    ".data _
    (renderBlock_tcp u o ht hcomp)
  · rw [hdet, nameOf]
    exact tcpBlock_decomp (getS o.name) (portRender o.port) (commentPart o.comments) Z
  · decide
  · exact hnd
  · exact hnq
  · rw [hdet]
    exact tcpDetails_no_x _ _ hpf hcm

lemma scan_block_udp (u : UidIndex) (o : SrcObj) (Z : List Char)
    (ht : o.type_ = some "service-udp") (hsafe : safeObj o = true)
    (hcomp : completeB o = true) :
    scanSections ((renderBlock u o).data ++ '\n' :: '\n' :: Z) =
      ((nameOf o).data, detailsOf u o) :: scanSections Z := by
  have hc2 := hcomp
  simp only [completeB, ht, Bool.and_eq_true] at hc2
  obtain ⟨hn, hp⟩ := hc2
  obtain ⟨hnd, hnq⟩ := name_facts o hsafe hn
  have hpf := port_facts o.port (safeObj_parts o hsafe).2.2.2.2.2.2.1
  have hcm := commentPart_no_x o.comments (safeObj_parts o hsafe).2.2.2.2.2.2.2
  have hdet : detailsOf u o =
      udpDetailsL (portRender o.port).data (commentPart o.comments).data := by
    simp [detailsOf, ht]
  apply scan_block_of u o Z "config firewall service custom\n    ".data _
    (renderBlock_udp u o ht hcomp)
  · rw [hdet, nameOf]
    exact udpBlock_decomp (getS o.name) (portRender o.port) (commentPart o.comments) Z
  · decide
  · exact hnd
  · exact hnq
  · rw [hdet]
    exact udpDetails_no_x _ _ hpf hcm

lemma scan_block_group (u : UidIndex) (o : SrcObj) (Z : List Char)
    (ht : o.type_ = some "group") (hsafe : safeObj o = true) (hcomp : completeB o = true)
    (hu : ∀ p ∈ u,
      (match (p : String × SrcObj).2.name with | some s => safeStr s | none => true) = true) :
    scanSections ((renderBlock u o).data ++ '\n' :: '\n' :: Z) =
      ((nameOf o).data, detailsOf u o) :: scanSections Z := by
  have hc2 := hcomp
  simp only [completeB, ht, Bool.and_eq_true] at hc2
  obtain ⟨hn, hm⟩ := hc2
  obtain ⟨hnd, hnq⟩ := name_facts o hsafe hn
  have hmp := memberPart_no_x (resolveMemberNames u o.members)
    (resolveMemberNames_safe u o.members hu)
  have hcm := commentPart_no_x o.comments (safeObj_parts o hsafe).2.2.2.2.2.2.2
  have hdet : detailsOf u o =
      groupDetailsL (memberPart (resolveMemberNames u o.members)).data
        (commentPart o.comments).data := by
    simp [detailsOf, ht]
  apply scan_block_of u o Z "config firewall addrgrp\n    ".data _
    (renderBlock_group u o ht hcomp)
  · rw [hdet, nameOf]
    exact groupBlock_decomp (getS o.name) (memberPart (resolveMemberNames u o.members))
      (commentPart o.comments) Z
  · decide
  · exact hnd
  · exact hnq
  · rw [hdet]
    exact groupDetails_no_x _ _ hmp hcm

lemma scan_blocks (u : UidIndex) (os : List SrcObj)
    (hos : ∀ o ∈ os, safeObj o = true ∧ completeB o = true)
    (hu : ∀ p ∈ u,
      (match (p : String × SrcObj).2.name with | some s => safeStr s | none => true) = true) :
    scanSections ((joinBlocks (os.map (renderBlock u))).data) =
      os.map (fun o => ((nameOf o).data, detailsOf u o)) := by
  induction os with
  | nil => rfl
  | cons o rest ih =>
    have hdata : (joinBlocks ((o :: rest).map (renderBlock u))).data =
        (renderBlock u o).data ++ '\n' :: '\n' ::
          (joinBlocks (rest.map (renderBlock u))).data := by
      simp only [List.map_cons, joinBlocks, String.data_append]
      simp only [List.append_assoc, List.cons_append, List.nil_append]
    rw [hdata]
    obtain ⟨hsafe, hcomp⟩ := hos o (by simp)
    have hrest : ∀ o2 ∈ rest, safeObj o2 = true ∧ completeB o2 = true :=
      fun o2 h2 => hos o2 (List.mem_cons_of_mem _ h2)
    rcases supportedB_cases o (completeB_supported o hcomp) with ht | ht | ht | ht | ht | ht
    · rw [scan_block_host u o _ ht hsafe hcomp, ih hrest]
      simp
    · rw [scan_block_network u o _ ht hsafe hcomp, ih hrest]
      simp
    · rw [scan_block_range u o _ ht hsafe hcomp, ih hrest]
      simp
    · rw [scan_block_tcp u o _ ht hsafe hcomp, ih hrest]
      simp
    · rw [scan_block_udp u o _ ht hsafe hcomp, ih hrest]
      simp
    · rw [scan_block_group u o _ ht hsafe hcomp hu, ih hrest]
      simp

lemma lookup_skip_names (L : List (List Char × List Char)) (acc : ExIndex) (k : String)
    (hnot : ∀ p ∈ L, String.mk p.1 ≠ k) :
    lookupEx (L.foldl
      (fun m nd => (String.mk nd.1, sectionDescriptor (stripChars nd.2)) :: m) acc) k =
      lookupEx acc k := by
  induction L generalizing acc with
  | nil => rfl
  | cons nd t ih =>
    rw [List.foldl_cons]
    rw [ih _ (fun p hp => hnot p (List.mem_cons_of_mem _ hp))]
    have hne := hnot nd (by simp)
    have hb : (String.mk nd.1 == k) = false := by simpa using hne
    rw [lookupEx, hb]
    simp

lemma lookup_load_gen (L : List (List Char × List Char)) :
    ∀ (acc : ExIndex) (nm d : List Char), (nm, d) ∈ L →
      (L.map (fun p => String.mk p.1)).Nodup →
      lookupEx (L.foldl
        (fun m nd => (String.mk nd.1, sectionDescriptor (stripChars nd.2)) :: m) acc)
        (String.mk nm) = some (sectionDescriptor (stripChars d)) := by
  induction L with
  | nil => intro acc nm d h _; cases h
  | cons nd t ih =>
    intro acc nm d hmem hnodup
    rw [List.foldl_cons]
    rcases List.mem_cons.mp hmem with he | hmem2
    · have hnd1 : nd.1 = nm := by
        rw [← he]
      have hnd2 : nd.2 = d := by
        rw [← he]
      have hnotin : String.mk nd.1 ∉ t.map (fun p => String.mk p.1) :=
        (List.nodup_cons.mp hnodup).1
      have hnot : ∀ p ∈ t, String.mk p.1 ≠ String.mk nd.1 := by
        intro p hp he2
        exact hnotin (by
          rw [← he2]
          exact List.mem_map_of_mem _ hp)
      rw [hnd1] at hnot
      rw [lookup_skip_names t _ (String.mk nm) hnot]
      rw [← hnd1]
      rw [lookupEx]
      simp [hnd1, hnd2]
    · exact ih _ nm d hmem2 (List.nodup_cons.mp hnodup).2

lemma lookup_load (content : String) (nm d : List Char)
    (hmem : (nm, d) ∈ scanSections content.data)
    (hnodup : ((scanSections content.data).map (fun p => String.mk p.1)).Nodup) :
    lookupEx (load_existing_fortigate_config content) (String.mk nm) =
      some (sectionDescriptor (stripChars d)) := by
  unfold load_existing_fortigate_config
  exact lookup_load_gen (scanSections content.data) [] nm d hmem hnodup

lemma rev_head_exists (Y X : List Char) (ch : Char) (h : Y = X ++ [ch])
    (hch : isSpaceCh ch = false) :
    ∃ c Y2, Y.reverse = c :: Y2 ∧ isSpaceCh c = false := by
  subst h
  exact ⟨ch, X.reverse, by simp, hch⟩

lemma exists_last (l : List Char) (h : l ≠ []) : ∃ M lst, l = M ++ [lst] := by
  induction l with
  | nil => exact absurd rfl h
  | cons a t ih =>
    cases t with
    | nil => exact ⟨[], a, rfl⟩
    | cons b t2 =>
      obtain ⟨M, lst, hm⟩ := ih (by simp)
      exact ⟨a :: M, lst, by rw [List.cons_append, ← hm]⟩

/-- The descriptor the loader recovers from a rendered host body: kind
`ipmask` with the address re-read as subnet `addr/32`. -/
lemma desc_hostDetails (a : List Char) (c : String)
    (ha1 : a ≠ []) (ha2 : ∀ ch ∈ a, isDigitDot ch = true) :
    sectionDescriptor (stripChars (hostDetailsL a (commentPart c).data)) =
      { type_ := "ipmask", subnet := some (String.mk (a ++ '/' :: ['3', '2'])),
        startIp := none, endIp := none } := by
  by_cases hcc : c = ""
  · subst hcc
    have hcp : (commentPart "").data = ([] : List Char) := rfl
    have harr : hostDetailsL a (commentPart "").data =
        "\n        ".data ++
          ("set type ipmask\n        set subnet ".data ++
            (a ++ '/' :: (['3', '2'] ++ ([] : List Char)))) ++ "\n    ".data := by
      rw [hcp]
      simp only [hostDetailsL]
      simp only [String.data_append, List.append_assoc, List.cons_append, List.nil_append]
    have hstrip := stripChars_spec "\n        ".data
        ("set type ipmask\n        set subnet ".data ++
          (a ++ '/' :: (['3', '2'] ++ ([] : List Char))))
        "\n    ".data (by decide) (by decide)
        ⟨'s', _, rfl, by decide⟩
        (rev_head_exists _
          ("set type ipmask\n        set subnet ".data ++ (a ++ ['/', '3'])) '2'
          (by simp) (by decide))
    rw [harr, hstrip]
    exact sectionDescriptor_ipmask a ['3', '2'] [] ha1 ha2 (by decide) (by decide) rfl
  · have hne : (c != "") = true := by simpa using hcc
    have hcp : (commentPart c).data =
        "        set comment \"".data ++ (c.data ++ "\"\n".data) := by
      unfold commentPart
      rw [if_pos hne]
      simp [String.data_append, List.append_assoc]
    have harr : hostDetailsL a (commentPart c).data =
        "\n        ".data ++
          ("set type ipmask\n        set subnet ".data ++
            (a ++ '/' :: (['3', '2'] ++
              ('\n' :: ("        set comment \"".data ++ (c.data ++ ['"'])))))) ++
          "\n    ".data := by
      rw [hcp]
      simp only [hostDetailsL]
      simp only [String.data_append, List.append_assoc, List.cons_append, List.nil_append]
    have hstrip := stripChars_spec "\n        ".data
        ("set type ipmask\n        set subnet ".data ++
          (a ++ '/' :: (['3', '2'] ++
            ('\n' :: ("        set comment \"".data ++ (c.data ++ ['"']))))))
        "\n    ".data (by decide) (by decide)
        ⟨'s', _, rfl, by decide⟩
        (rev_head_exists _
          ("set type ipmask\n        set subnet ".data ++
            (a ++ '/' :: (['3', '2'] ++
              ('\n' :: ("        set comment \"".data ++ c.data))))) '"'
          (by simp) (by decide))
    rw [harr, hstrip]
    exact sectionDescriptor_ipmask a ['3', '2']
      ('\n' :: ("        set comment \"".data ++ (c.data ++ ['"'])))
      ha1 ha2 (by decide) (by decide) rfl

/-- The descriptor the loader recovers from a rendered network body: kind
`ipmask` with subnet `net/mask`. -/
lemma desc_networkDetails (sN m : List Char) (c : String)
    (hs1 : sN ≠ []) (hs2 : ∀ ch ∈ sN, isDigitDot ch = true)
    (hm1 : m ≠ []) (hm2 : ∀ ch ∈ m, Char.isDigit ch = true) :
    sectionDescriptor (stripChars (networkDetailsL sN m (commentPart c).data)) =
      { type_ := "ipmask", subnet := some (String.mk (sN ++ '/' :: m)),
        startIp := none, endIp := none } := by
  by_cases hcc : c = ""
  · subst hcc
    have hcp : (commentPart "").data = ([] : List Char) := rfl
    obtain ⟨M, lst, hml⟩ := exists_last m hm1
    have hlstd : Char.isDigit lst = true := hm2 lst (by rw [hml]; simp)
    have hlsts : isSpaceCh lst = false :=
      isSpaceCh_false_of_digitDot lst (by simp [isDigitDot, hlstd])
    have harr : networkDetailsL sN m (commentPart "").data =
        "\n        ".data ++
          ("set type ipmask\n        set subnet ".data ++
            (sN ++ '/' :: (m ++ ([] : List Char)))) ++ "\n    ".data := by
      rw [hcp]
      simp only [networkDetailsL]
      simp only [String.data_append, List.append_assoc, List.cons_append, List.nil_append]
    have hstrip := stripChars_spec "\n        ".data
        ("set type ipmask\n        set subnet ".data ++
          (sN ++ '/' :: (m ++ ([] : List Char))))
        "\n    ".data (by decide) (by decide)
        ⟨'s', _, rfl, by decide⟩
        (rev_head_exists _
          ("set type ipmask\n        set subnet ".data ++ (sN ++ '/' :: M)) lst
          (by rw [hml]; simp) hlsts)
    rw [harr, hstrip]
    exact sectionDescriptor_ipmask sN m [] hs1 hs2 hm1 hm2 rfl
  · have hne : (c != "") = true := by simpa using hcc
    have hcp : (commentPart c).data =
        "        set comment \"".data ++ (c.data ++ "\"\n".data) := by
      unfold commentPart
      rw [if_pos hne]
      simp [String.data_append, List.append_assoc]
    have harr : networkDetailsL sN m (commentPart c).data =
        "\n        ".data ++
          ("set type ipmask\n        set subnet ".data ++
            (sN ++ '/' :: (m ++
              ('\n' :: ("        set comment \"".data ++ (c.data ++ ['"'])))))) ++
          "\n    ".data := by
      rw [hcp]
      simp only [networkDetailsL]
      simp only [String.data_append, List.append_assoc, List.cons_append, List.nil_append]
    have hstrip := stripChars_spec "\n        ".data
        ("set type ipmask\n        set subnet ".data ++
          (sN ++ '/' :: (m ++
            ('\n' :: ("        set comment \"".data ++ (c.data ++ ['"']))))))
        "\n    ".data (by decide) (by decide)
        ⟨'s', _, rfl, by decide⟩
        (rev_head_exists _
          ("set type ipmask\n        set subnet ".data ++
            (sN ++ '/' :: (m ++
              ('\n' :: ("        set comment \"".data ++ c.data))))) '"'
          (by simp) (by decide))
    rw [harr, hstrip]
    exact sectionDescriptor_ipmask sN m
      ('\n' :: ("        set comment \"".data ++ (c.data ++ ['"'])))
      hs1 hs2 hm1 hm2 rfl

/-- The descriptor the loader recovers from a rendered range body: kind
`iprange` with the start and end addresses re-read. -/
lemma desc_rangeDetails (f l : List Char) (c : String)
    (hf1 : f ≠ []) (hf2 : ∀ ch ∈ f, isDigitDot ch = true)
    (hl1 : l ≠ []) (hl2 : ∀ ch ∈ l, isDigitDot ch = true) :
    sectionDescriptor (stripChars (rangeDetailsL f l (commentPart c).data)) =
      { type_ := "iprange", subnet := none,
        startIp := some (String.mk f), endIp := some (String.mk l) } := by
  by_cases hcc : c = ""
  · subst hcc
    have hcp : (commentPart "").data = ([] : List Char) := rfl
    obtain ⟨M, lst, hml⟩ := exists_last l hl1
    have hlstd : isDigitDot lst = true := hl2 lst (by rw [hml]; simp)
    have hlsts : isSpaceCh lst = false := isSpaceCh_false_of_digitDot lst hlstd
    have harr : rangeDetailsL f l (commentPart "").data =
        "\n        ".data ++
          ("set type iprange\n        set start-ip ".data ++
            (f ++ ("\n        set end-ip ".data ++ (l ++ ([] : List Char))))) ++
          "\n    ".data := by
      rw [hcp]
      simp only [rangeDetailsL]
      simp only [String.data_append, List.append_assoc, List.cons_append, List.nil_append]
    have hstrip := stripChars_spec "\n        ".data
        ("set type iprange\n        set start-ip ".data ++
          (f ++ ("\n        set end-ip ".data ++ (l ++ ([] : List Char)))))
        "\n    ".data (by decide) (by decide)
        ⟨'s', _, rfl, by decide⟩
        (rev_head_exists _
          ("set type iprange\n        set start-ip ".data ++
            (f ++ ("\n        set end-ip ".data ++ M))) lst
          (by rw [hml]; simp) hlsts)
    rw [harr, hstrip]
    exact sectionDescriptor_iprange f l [] hf1 hf2 hl1 hl2 rfl
  · have hne : (c != "") = true := by simpa using hcc
    have hcp : (commentPart c).data =
        "        set comment \"".data ++ (c.data ++ "\"\n".data) := by
      unfold commentPart
      rw [if_pos hne]
      simp [String.data_append, List.append_assoc]
    have harr : rangeDetailsL f l (commentPart c).data =
        "\n        ".data ++
          ("set type iprange\n        set start-ip ".data ++
            (f ++ ("\n        set end-ip ".data ++ (l ++
              ('\n' :: ("        set comment \"".data ++ (c.data ++ ['"'])))))) ) ++
          "\n    ".data := by
      rw [hcp]
      simp only [rangeDetailsL]
      simp only [String.data_append, List.append_assoc, List.cons_append, List.nil_append]
    have hstrip := stripChars_spec "\n        ".data
        ("set type iprange\n        set start-ip ".data ++
          (f ++ ("\n        set end-ip ".data ++ (l ++
            ('\n' :: ("        set comment \"".data ++ (c.data ++ ['"'])))))))
        "\n    ".data (by decide) (by decide)
        ⟨'s', _, rfl, by decide⟩
        (rev_head_exists _
          ("set type iprange\n        set start-ip ".data ++
            (f ++ ("\n        set end-ip ".data ++ (l ++
              ('\n' :: ("        set comment \"".data ++ c.data)))))) '"'
          (by simp) (by decide))
    rw [harr, hstrip]
    exact sectionDescriptor_iprange f l
      ('\n' :: ("        set comment \"".data ++ (c.data ++ ['"'])))
      hf1 hf2 hl1 hl2 rfl

/-- A complete safe host whose name maps, in the index, to the descriptor of
its own rendered details is classified as a duplicate. -/
lemma dup_host (u : UidIndex) (o : SrcObj) (idx : ExIndex)
    (ht : o.type_ = some "host") (hsafe : safeObj o = true) (hcomp : completeB o = true)
    (hidx : lookupEx idx (nameOf o) = some (sectionDescriptor (stripChars (detailsOf u o)))) :
    convertAny o u idx = (none, true) := by
  simp only [completeB, ht, Bool.and_eq_true] at hcomp
  obtain ⟨hn, hi⟩ := hcomp
  have hparts := safeObj_parts o hsafe
  obtain ⟨ha1, ha2⟩ := digitDot_facts o.ipv4Address hparts.2.1 hi
  have hdet : detailsOf u o =
      hostDetailsL (getS o.ipv4Address).data (commentPart o.comments).data := by
    unfold detailsOf
    rw [ht]
    rfl
  rw [hdet, desc_hostDetails _ o.comments ha1 ha2] at hidx
  have hnm : nameOf o = getS o.name := rfl
  rw [hnm] at hidx
  have hsub : String.mk ((getS o.ipv4Address).data ++ '/' :: ['3', '2']) =
      getS o.ipv4Address ++ "/32" := rfl
  rw [convertAny_of_not_group o u idx (by simp [isGroupType, ht])]
  simp [convertSimple, ht, convert_host_object, hn, hi, hidx, hsub]

/-- A complete safe network whose name maps, in the index, to the descriptor
of its own rendered details is classified as a duplicate. -/
lemma dup_network (u : UidIndex) (o : SrcObj) (idx : ExIndex)
    (ht : o.type_ = some "network") (hsafe : safeObj o = true) (hcomp : completeB o = true)
    (hidx : lookupEx idx (nameOf o) = some (sectionDescriptor (stripChars (detailsOf u o)))) :
    convertAny o u idx = (none, true) := by
  simp only [completeB, ht, Bool.and_eq_true] at hcomp
  obtain ⟨⟨hn, hs⟩, hm⟩ := hcomp
  have hparts := safeObj_parts o hsafe
  obtain ⟨hs1, hs2⟩ := digitDot_facts o.subnet4 hparts.2.2.1 hs
  obtain ⟨hm1, hm2⟩ := mask_facts o.maskLength4 hparts.2.2.2.1 hm
  have hdet : detailsOf u o =
      networkDetailsL (getS o.subnet4).data (toString (o.maskLength4.getD 0)).data
        (commentPart o.comments).data := by
    unfold detailsOf
    rw [ht]
    rfl
  rw [hdet, desc_networkDetails _ _ o.comments hs1 hs2 hm1 hm2] at hidx
  have hnm : nameOf o = getS o.name := rfl
  rw [hnm] at hidx
  have hl : (getS o.subnet4).data ++ '/' :: (toString (o.maskLength4.getD 0)).data =
      (getS o.subnet4 ++ "/" ++ toString (o.maskLength4.getD 0)).data := by
    simp only [String.data_append]
    simp only [List.append_assoc, List.cons_append, List.nil_append]
  have hsub : String.mk ((getS o.subnet4).data ++ '/' :: (toString (o.maskLength4.getD 0)).data) =
      getS o.subnet4 ++ "/" ++ toString (o.maskLength4.getD 0) := by
    rw [hl]
  have hm3 : (o.maskLength4 == none) = false := by
    cases hmm : o.maskLength4 with
    | none => rw [hmm] at hm; simp at hm
    | some v => simp
  rw [convertAny_of_not_group o u idx (by simp [isGroupType, ht])]
  simp [convertSimple, ht, convert_network_object, hn, hs, hm3, hidx, hsub]

/-- A complete safe range whose name maps, in the index, to the descriptor of
its own rendered details is classified as a duplicate. -/
lemma dup_range (u : UidIndex) (o : SrcObj) (idx : ExIndex)
    (ht : o.type_ = some "address-range") (hsafe : safeObj o = true)
    (hcomp : completeB o = true)
    (hidx : lookupEx idx (nameOf o) = some (sectionDescriptor (stripChars (detailsOf u o)))) :
    convertAny o u idx = (none, true) := by
  simp only [completeB, ht, Bool.and_eq_true] at hcomp
  obtain ⟨⟨hn, hf⟩, hl⟩ := hcomp
  have hparts := safeObj_parts o hsafe
  obtain ⟨hf1, hf2⟩ := digitDot_facts o.ipv4AddressFirst hparts.2.2.2.2.1 hf
  obtain ⟨hl1, hl2⟩ := digitDot_facts o.ipv4AddressLast hparts.2.2.2.2.2.1 hl
  have hdet : detailsOf u o =
      rangeDetailsL (getS o.ipv4AddressFirst).data (getS o.ipv4AddressLast).data
        (commentPart o.comments).data := by
    unfold detailsOf
    rw [ht]
    rfl
  rw [hdet, desc_rangeDetails _ _ o.comments hf1 hf2 hl1 hl2] at hidx
  have hnm : nameOf o = getS o.name := rfl
  rw [hnm] at hidx
  have heta1 : String.mk (getS o.ipv4AddressFirst).data = getS o.ipv4AddressFirst := rfl
  have heta2 : String.mk (getS o.ipv4AddressLast).data = getS o.ipv4AddressLast := rfl
  rw [convertAny_of_not_group o u idx (by simp [isGroupType, ht])]
  simp [convertSimple, ht, convert_range_object, hn, hf, hl, hidx, heta1, heta2]

/-- A complete TCP service whose name is in the index at all is classified as
a duplicate. -/
lemma dup_tcp (u : UidIndex) (o : SrcObj) (idx : ExIndex)
    (ht : o.type_ = some "service-tcp") (hcomp : completeB o = true)
    (hidx : (lookupEx idx (nameOf o)).isSome = true) :
    convertAny o u idx = (none, true) := by
  simp only [completeB, ht, Bool.and_eq_true] at hcomp
  obtain ⟨hn, hp⟩ := hcomp
  simp only [nameOf] at hidx
  rw [convertAny_of_not_group o u idx (by simp [isGroupType, ht])]
  simp [convertSimple, ht, convert_service_tcp_object, hn, hp, hidx]

/-- A complete UDP service whose name is in the index at all is classified as
a duplicate. -/
lemma dup_udp (u : UidIndex) (o : SrcObj) (idx : ExIndex)
    (ht : o.type_ = some "service-udp") (hcomp : completeB o = true)
    (hidx : (lookupEx idx (nameOf o)).isSome = true) :
    convertAny o u idx = (none, true) := by
  simp only [completeB, ht, Bool.and_eq_true] at hcomp
  obtain ⟨hn, hp⟩ := hcomp
  simp only [nameOf] at hidx
  rw [convertAny_of_not_group o u idx (by simp [isGroupType, ht])]
  simp [convertSimple, ht, convert_service_udp_object, hn, hp, hidx]

/-- A complete group whose name is in the index at all is classified as a
duplicate. -/
lemma dup_group (u : UidIndex) (o : SrcObj) (idx : ExIndex)
    (ht : o.type_ = some "group") (hcomp : completeB o = true)
    (hidx : (lookupEx idx (nameOf o)).isSome = true) :
    convertAny o u idx = (none, true) := by
  simp only [completeB, ht, Bool.and_eq_true] at hcomp
  obtain ⟨hn, hm⟩ := hcomp
  have hmf : (o.members == []) = false := by
    cases hmm : o.members with
    | nil => rw [hmm] at hm; simp at hm
    | cons a t => simp
  simp only [nameOf] at hidx
  rw [convertAny_group o u idx ht]
  simp [convert_group_object, hn, hmf, hidx]

/-- Against the empty index every complete object converts to its rendered
block and is not a duplicate. -/
lemma convertAny_empty (o : SrcObj) (u : UidIndex) (hcomp : completeB o = true) :
    convertAny o u [] = (some (renderBlock u o), false) := by
  have hc0 := hcomp
  rcases supportedB_cases o (completeB_supported o hcomp) with ht | ht | ht | ht | ht | ht
  · simp only [completeB, ht, Bool.and_eq_true] at hcomp
    obtain ⟨hn, hi⟩ := hcomp
    rw [renderBlock_host u o ht hc0,
      convertAny_of_not_group o u [] (by simp [isGroupType, ht])]
    simp [convertSimple, ht, convert_host_object, hn, hi, lookupEx]
  · simp only [completeB, ht, Bool.and_eq_true] at hcomp
    obtain ⟨⟨hn, hs⟩, hm⟩ := hcomp
    have hm2 : (o.maskLength4 == none) = false := by
      cases hmm : o.maskLength4 with
      | none => rw [hmm] at hm; simp at hm
      | some v => simp
    rw [renderBlock_network u o ht hc0,
      convertAny_of_not_group o u [] (by simp [isGroupType, ht])]
    simp [convertSimple, ht, convert_network_object, hn, hs, hm2, lookupEx]
  · simp only [completeB, ht, Bool.and_eq_true] at hcomp
    obtain ⟨⟨hn, hf⟩, hl⟩ := hcomp
    rw [renderBlock_range u o ht hc0,
      convertAny_of_not_group o u [] (by simp [isGroupType, ht])]
    simp [convertSimple, ht, convert_range_object, hn, hf, hl, lookupEx]
  · simp only [completeB, ht, Bool.and_eq_true] at hcomp
    obtain ⟨hn, hp⟩ := hcomp
    rw [renderBlock_tcp u o ht hc0,
      convertAny_of_not_group o u [] (by simp [isGroupType, ht])]
    simp [convertSimple, ht, convert_service_tcp_object, hn, hp, lookupEx]
  · simp only [completeB, ht, Bool.and_eq_true] at hcomp
    obtain ⟨hn, hp⟩ := hcomp
    rw [renderBlock_udp u o ht hc0,
      convertAny_of_not_group o u [] (by simp [isGroupType, ht])]
    simp [convertSimple, ht, convert_service_udp_object, hn, hp, lookupEx]
  · simp only [completeB, ht, Bool.and_eq_true] at hcomp
    obtain ⟨hn, hm⟩ := hcomp
    have hm2 : (o.members == []) = false := by
      cases hmm : o.members with
      | nil => rw [hmm] at hm; simp at hm
      | cons a t => simp
    rw [renderBlock_group u o ht hc0, convertAny_group o u [] ht]
    simp [convert_group_object, hn, hm2, lookupEx]

lemma convertAny_empty_snd (o : SrcObj) (u : UidIndex) :
    (convertAny o u []).2 = false := by
  by_cases hc : completeB o = true
  · rw [convertAny_empty o u hc]
  · rw [convertAny_incomplete o u [] (by simpa using hc)]

lemma renderBlock_ne_empty (o : SrcObj) (u : UidIndex) (hcomp : completeB o = true) :
    renderBlock u o ≠ "" := by
  rcases convertAny_complete_cases o u [] hcomp with hd | ⟨b, hb, hne⟩
  · rw [convertAny_empty o u hcomp] at hd
    exact absurd (congrArg Prod.snd hd) (by simp)
  · rw [convertAny_empty o u hcomp] at hb
    have hfst : some (renderBlock u o) = some b := congrArg Prod.fst hb
    rw [Option.some.injEq] at hfst
    rw [hfst]
    exact hne

lemma filterMap_resBlock_empty (u : UidIndex) (l : List SrcObj) :
    l.filterMap (fun o => resBlock (convertAny o u [])) =
      (l.filter completeB).map (renderBlock u) := by
  induction l with
  | nil => rfl
  | cons o t ih =>
    by_cases hc : completeB o = true
    · have hne : (renderBlock u o != "") = true := by
        simpa using renderBlock_ne_empty o u hc
      have hfa : resBlock (convertAny o u []) = some (renderBlock u o) := by
        rw [convertAny_empty o u hc]
        simp [resBlock, hne]
      rw [List.filter_cons, if_pos hc]
      simp only [List.filterMap_cons, hfa, List.map_cons]
      rw [ih]
    · have hfa : resBlock (convertAny o u []) = none := by
        rw [convertAny_incomplete o u [] (by simpa using hc)]
        simp [resBlock]
      rw [List.filter_cons, if_neg hc]
      simp only [List.filterMap_cons, hfa]
      rw [ih]

lemma countP_convert_empty (u : UidIndex) (l : List SrcObj) :
    l.countP (fun o => (convertAny o u []).2) = 0 := by
  induction l with
  | nil => rfl
  | cons o t ih => simp [List.countP_cons, convertAny_empty_snd, ih]

/-- The objects that produce blocks in a run against the empty index, in
emission order: complete simple objects first, complete groups second. -/
def completeList (objs : List SrcObj) : List SrcObj :=
  (objs.filter (fun o => !isGroupType o)).filter completeB ++
    (objs.filter isGroupType).filter completeB

/-- A run against the empty index renders one block per complete object, in
emission order, and reports no duplicates. -/
lemma run1_eq (objs : List SrcObj) :
    convert_objects objs [] =
      ((completeList objs).map (renderBlock (buildUidIndex objs)), 0) := by
  rw [convert_objects_spec, completeList, List.map_append]
  rw [filterMap_resBlock_empty, filterMap_resBlock_empty, countP_convert_empty]

/-- A complete safe object whose name maps, in the index, to the descriptor
of its own rendered details converts as a duplicate, whatever its kind. -/
lemma dup_any (u : UidIndex) (o : SrcObj) (idx : ExIndex)
    (hsafe : safeObj o = true) (hcomp : completeB o = true)
    (hidx : lookupEx idx (nameOf o) = some (sectionDescriptor (stripChars (detailsOf u o)))) :
    convertAny o u idx = (none, true) := by
  have hsome : (lookupEx idx (nameOf o)).isSome = true := by rw [hidx]; rfl
  rcases supportedB_cases o (completeB_supported o hcomp) with ht | ht | ht | ht | ht | ht
  · exact dup_host u o idx ht hsafe hcomp hidx
  · exact dup_network u o idx ht hsafe hcomp hidx
  · exact dup_range u o idx ht hsafe hcomp hidx
  · exact dup_tcp u o idx ht hcomp hsome
  · exact dup_udp u o idx ht hcomp hsome
  · exact dup_group u o idx ht hcomp hsome

lemma completeList_perm (objs : List SrcObj) :
    List.Perm (completeList objs) (objs.filter completeB) := by
  unfold completeList
  have e1 : (objs.filter (fun o => !isGroupType o)).filter completeB =
      (objs.filter completeB).filter (fun o => !isGroupType o) := by
    rw [List.filter_filter, List.filter_filter]
    exact List.filter_congr (fun a _ => Bool.and_comm _ _)
  have e2 : (objs.filter isGroupType).filter completeB =
      (objs.filter completeB).filter isGroupType := by
    rw [List.filter_filter, List.filter_filter]
    exact List.filter_congr (fun a _ => Bool.and_comm _ _)
  rw [e1, e2]
  have hp := List.filter_append_perm (fun o => !isGroupType o) (objs.filter completeB)
  have e3 : (objs.filter completeB).filter (fun x => !!isGroupType x) =
      (objs.filter completeB).filter isGroupType :=
    List.filter_congr (fun a _ => by simp)
  rw [e3] at hp
  exact hp

lemma mem_completeList (objs : List SrcObj) (o : SrcObj) (ho : o ∈ objs)
    (hc : completeB o = true) : o ∈ completeList objs := by
  unfold completeList
  by_cases hg : isGroupType o = true
  · exact List.mem_append.mpr (Or.inr
      (List.mem_filter.mpr ⟨List.mem_filter.mpr ⟨ho, hg⟩, hc⟩))
  · have hg2 : (!isGroupType o) = true := by
      have hgf : isGroupType o = false := by simpa using hg
      rw [hgf]
      rfl
    exact List.mem_append.mpr (Or.inl
      (List.mem_filter.mpr ⟨List.mem_filter.mpr ⟨ho, hg2⟩, hc⟩))

lemma completeList_sub (objs : List SrcObj) :
    ∀ o ∈ completeList objs, o ∈ objs ∧ completeB o = true := by
  intro o h
  rcases List.mem_append.mp h with h | h
  · have hf := List.mem_filter.mp h
    exact ⟨(List.mem_filter.mp hf.1).1, hf.2⟩
  · have hf := List.mem_filter.mp h
    exact ⟨(List.mem_filter.mp hf.1).1, hf.2⟩

/-- In the round-trip, the loaded index maps each complete object's name to
the descriptor of that object's own rendered details. -/
lemma run2_lookup (objs : List SrcObj)
    (hsafe : ∀ o ∈ objs, safeObj o = true)
    (hnodup : ((objs.filter completeB).map nameOf).Nodup)
    (o : SrcObj) (hmemo : o ∈ objs) (hco : completeB o = true) :
    lookupEx (load_existing_fortigate_config (joinBlocks (convert_objects objs []).1))
        (nameOf o) =
      some (sectionDescriptor (stripChars (detailsOf (buildUidIndex objs) o))) := by
  have hb1 : (convert_objects objs []).1 =
      (completeList objs).map (renderBlock (buildUidIndex objs)) := by
    rw [run1_eq]
  rw [hb1]
  have hos : ∀ o2 ∈ completeList objs, safeObj o2 = true ∧ completeB o2 = true := by
    intro o2 h2
    obtain ⟨hm2, hc2⟩ := completeList_sub objs o2 h2
    exact ⟨hsafe o2 hm2, hc2⟩
  have hu : ∀ p ∈ buildUidIndex objs,
      (match (p : String × SrcObj).2.name with | some s => safeStr s | none => true) = true := by
    intro p hp
    rcases p with ⟨k, v⟩
    have hv : v ∈ objs := buildUidIndex_mem objs k v hp
    exact (safeObj_parts v (hsafe v hv)).1
  have hscan := scan_blocks (buildUidIndex objs) (completeList objs) hos hu
  have hmem : ((nameOf o).data, detailsOf (buildUidIndex objs) o) ∈
      scanSections (joinBlocks ((completeList objs).map
        (renderBlock (buildUidIndex objs)))).data := by
    rw [hscan]
    exact List.mem_map_of_mem _ (mem_completeList objs o hmemo hco)
  have hnodup2 : ((completeList objs).map nameOf).Nodup :=
    ((completeList_perm objs).map nameOf).nodup_iff.mpr hnodup
  have hnodup3 : ((scanSections (joinBlocks ((completeList objs).map
        (renderBlock (buildUidIndex objs)))).data).map
      (fun p => String.mk p.1)).Nodup := by
    rw [hscan, List.map_map]
    have he : (completeList objs).map
        ((fun p : List Char × List Char => String.mk p.1) ∘
          (fun o2 => ((nameOf o2).data, detailsOf (buildUidIndex objs) o2))) =
        (completeList objs).map nameOf :=
      List.map_congr_left (fun a _ => rfl)
    rw [he]
    exact hnodup2
  exact lookup_load _ (nameOf o).data (detailsOf (buildUidIndex objs) o) hmem hnodup3

lemma countP_eq_len (p : SrcObj → Bool) (l : List SrcObj) :
    l.countP p = (l.filter p).length := by
  induction l with
  | nil => rfl
  | cons o t ih => cases h : p o <;> simp [List.countP_cons, List.filter_cons, h, ih]

/-- CLAIM C2 (amended).  The round trip is idempotent for inputs whose
rendered text the loader can re-read: if every object's name and comment are
drawn from the safe alphabet, its addresses are digits-and-dots, its mask
renders as digits and its port as digits and dashes, and the complete
objects carry pairwise distinct names, then a second run against the loaded
first-run output converts nothing and counts one duplicate per first-run
block. -/
theorem claim_c2_amended (objs : List SrcObj)
    (hsafe : ∀ o ∈ objs, safeObj o = true)
    (hnodup : ((objs.filter completeB).map nameOf).Nodup) :
    convert_objects objs
        (load_existing_fortigate_config (joinBlocks (convert_objects objs []).1)) =
      ([], (convert_objects objs []).1.length) := by
  have hdup : ∀ o ∈ objs, completeB o = true →
      convertAny o (buildUidIndex objs)
        (load_existing_fortigate_config (joinBlocks (convert_objects objs []).1)) =
      (none, true) :=
    fun o ho hc =>
      dup_any _ o _ (hsafe o ho) hc (run2_lookup objs hsafe hnodup o ho hc)
  rw [convert_objects_spec objs
    (load_existing_fortigate_config (joinBlocks (convert_objects objs []).1))]
  have hfm : ∀ (l : List SrcObj), (∀ o ∈ l, o ∈ objs) →
      l.filterMap (fun o => resBlock (convertAny o (buildUidIndex objs)
        (load_existing_fortigate_config (joinBlocks (convert_objects objs []).1)))) = [] := by
    intro l
    induction l with
    | nil => intro _; rfl
    | cons o t ih =>
      intro hsub
      have ho := hsub o (by simp)
      have hfa : resBlock (convertAny o (buildUidIndex objs)
          (load_existing_fortigate_config (joinBlocks (convert_objects objs []).1))) =
          none := by
        by_cases hc : completeB o = true
        · rw [hdup o ho hc]
          simp [resBlock]
        · rw [convertAny_incomplete _ _ _ (by simpa using hc)]
          simp [resBlock]
      simp only [List.filterMap_cons, hfa]
      exact ih (fun o2 h2 => hsub o2 (List.mem_cons_of_mem _ h2))
  have hcnt : objs.countP (fun o => (convertAny o (buildUidIndex objs)
      (load_existing_fortigate_config (joinBlocks (convert_objects objs []).1))).2) =
      objs.countP completeB := by
    apply List.countP_congr
    intro a ha
    by_cases hc : completeB a = true
    · rw [hdup a ha hc, hc]
    · rw [convertAny_incomplete _ _ _ (by simpa using hc)]
      have hcf : completeB a = false := by simpa using hc
      rw [hcf]
  have hlen : (convert_objects objs []).1.length = objs.countP completeB := by
    rw [run1_eq]
    simp only [List.length_map]
    rw [(completeList_perm objs).length_eq, countP_eq_len]
  rw [hfm _ (fun o ho => (List.mem_filter.mp ho).1),
    hfm _ (fun o ho => (List.mem_filter.mp ho).1), hcnt, hlen]
  rfl

/-- A concrete safe input for the amended round-trip: a host, a TCP service
and a group referencing the host by uid. -/
def c2wobjs : List SrcObj :=
  [ { emptyObj with
        type_ := some "host", name := some "H1", uid := some "u1",
        ipv4Address := some "10.0.0.1", comments := "a host" },
    { emptyObj with
        type_ := some "service-tcp", name := some "S1",
        port := some (JVal.jstr "80") },
    { emptyObj with
        type_ := some "group", name := some "G1", members := ["u1"] } ]

/-- Witness for the amended C2: the safety and distinct-name hypotheses hold
on a concrete input, and the round trip is idempotent there. -/
theorem claim_c2_amended_witness :
    (∀ o ∈ c2wobjs, safeObj o = true) ∧
    ((c2wobjs.filter completeB).map nameOf).Nodup ∧
    convert_objects c2wobjs
        (load_existing_fortigate_config (joinBlocks (convert_objects c2wobjs []).1)) =
      ([], (convert_objects c2wobjs []).1.length) :=
  ⟨by decide, by decide, claim_c2_amended c2wobjs (by decide) (by decide)⟩

end CkptFgt
